import Mathlib

/-!
# FlatDictionary

A shallow embedding of `dbms/include/DB/Dictionaries/FlatDictionary.h`: the
attribute columns, the loader that fills them from the blocks of a source, and
the getters, followed by the properties proved about them.

Conventions of the embedding.

* `UIntN` values are natural numbers and `IntN` values integers; every
  conversion between widths is written out (`castUInt`, `castInt`, `to_id_t`).
* A C++ function that can throw returns `Except Fault _`.  `Fault` holds the
  error codes the file throws, the failure of `DB::parse`, and `UNDEFINED`,
  which marks what C++ leaves undefined (indexing outside an array, going
  through a null pointer).  Nothing is assumed about such a step: it is a
  result of its own and the theorems show where it can and cannot occur.
* `setAttributeValue` mutates its argument and may throw, so it returns both
  the attribute as the call leaves it and the outcome.
* An `attribute_t` is held as a value.  Where the code moves one into another
  object (line 27) the embedding applies `attribute_t.moved`, which records
  what the move does to the pointers into the object itself.
* What the header only uses and does not define (`DB::parse`, the conversion
  of a double to a float, `Field`, `Block`, `DictionaryStructure`) is either a
  field of `Env` or a small type described where it is declared.
-/

namespace DB

/-- The constant `initial_array_size` (line 12). -/
def initial_array_size : Nat := 128

/-- The constant `max_array_size` (line 13). -/
def max_array_size : Nat := 500000

/-- The eleven kinds of `attribute_type`, in the order the switches list them. -/
inductive attribute_type where
  | uint8 | uint16 | uint32 | uint64
  | int8 | int16 | int32 | int64
  | float32 | float64
  | string
  deriving DecidableEq, Repr

/-- Outcomes other than a normal return.  `BAD_ARGUMENTS`, `TYPE_MISMATCH` and
`ARGUMENT_OUT_OF_BOUND` are the `ErrorCodes` thrown in the header (the spec
calls them UnknownAttribute, TypeMismatch and IdOutOfBound); `CANNOT_PARSE` is
an exception leaving `DB::parse` (ValueParseError); `UNDEFINED` is not an
exception: it marks a step with undefined behaviour. -/
inductive Fault where
  | BAD_ARGUMENTS
  | TYPE_MISMATCH
  | ARGUMENT_OUT_OF_BOUND
  | CANNOT_PARSE
  | UNDEFINED
  deriving DecidableEq, Repr

/-- A `Float32`, known only by its bit pattern. -/
structure Float32 where
  bits : Nat
  deriving DecidableEq, Repr

/-- A `Float64`, known only by its bit pattern. -/
structure Float64 where
  bits : Nat
  deriving DecidableEq, Repr

/-- Conversion of an unsigned value to `UIntw`: reduction modulo `2^w`. -/
def castUInt (w : Nat) (v : Nat) : Nat := v % 2 ^ w

/-- Conversion of an integer to `Intw`: the two's complement value of its low
`w` bits, in `[-2^(w-1), 2^(w-1))`. -/
def castInt (w : Nat) (v : Int) : Int := (v + 2 ^ (w - 1)) % 2 ^ w - 2 ^ (w - 1)

/-- Conversion of an `IntN` to `id_t`, an unsigned 64-bit integer. -/
def to_id_t (v : Int) : Nat := (v % 2 ^ 64).toNat

/-- What the header uses without defining it.  `parseUInt w` is
`DB::parse<UIntw>`, `parseInt w` is `DB::parse<Intw>`, `parseFloat32` and
`parseFloat64` are `DB::parse<Float32>` and `DB::parse<Float64>`; `none` stands
for a thrown exception.  `toFloat32` is the conversion C++ applies when a
`Float64` is assigned to a `Float32`. -/
structure Env where
  parseUInt : Nat → String → Option Nat
  parseInt : Nat → String → Option Int
  parseFloat32 : String → Option Float32
  parseFloat64 : String → Option Float64
  toFloat32 : Float64 → Float32

/-- A `Field`, the value cell of a block.  The loader reads a field only
through `get<UInt64>`, `get<Int64>`, `get<Float64>` and `get<String>`, so a
field is held as what each of the four returns on it. -/
structure Field where
  uint64 : Nat
  int64 : Int
  float64 : Float64
  string : String

/-- The call `value.get<UInt64>()`. -/
def Field.get_UInt64 (value : Field) : Nat := castUInt 64 value.uint64

/-- The call `value.get<Int64>()`. -/
def Field.get_Int64 (value : Field) : Int := castInt 64 value.int64

/-- The call `value.get<Float64>()`. -/
def Field.get_Float64 (value : Field) : Float64 := value.float64

/-- The call `value.get<String>()`. -/
def Field.get_String (value : Field) : String := value.string

/-- Where the bytes of a `StringRef` live.  `null_value_data` is the buffer of
the `string_null_value` of the `attribute_t` object that holds the reference;
`moved_from` is the buffer that the `string_null_value` of an `attribute_t`
had before the object was moved, which `std::string` does not keep valid over
the move; `arena chunk` is the chunk of the holder's arena with the given
number (chunks are numbered in the order of insertion, and the arena is behind
a `unique_ptr`, so a move of the holder leaves them where they are). -/
inductive CharPtr where
  | null_value_data
  | moved_from
  | arena (chunk : Nat)
  deriving DecidableEq, Repr

/-- A `StringRef`: a pointer and a size in bytes. -/
structure StringRef where
  data : CharPtr
  size : Nat
  deriving DecidableEq, Repr

/-- An `Arena`: the chunks inserted so far, oldest first.  Nothing is ever
removed or moved. -/
abbrev Arena := List String

/-- The call `arena->insert(string.data(), string.size())`: copies the bytes
into a fresh chunk and returns where they are. -/
def Arena.insert (arena : Arena) (string : String) : CharPtr × Arena :=
  (CharPtr.arena arena.length, arena ++ [string])

/-- An array in memory (`new T[n]`, or the elements of a `std::vector`): its
length and the element at each index below it.  `cell` is read only below
`size`. -/
structure Vec (α : Type) where
  size : Nat
  cell : Nat → α

/-- The array of `n` elements that all equal `v`. -/
def Vec.fill {α : Type} (n : Nat) (v : α) : Vec α := ⟨n, fun _ => v⟩

/-- The element at index `i`, when `i` is an index of the array. -/
def Vec.get? {α : Type} (a : Vec α) (i : Nat) : Option α :=
  if i < a.size then some (a.cell i) else none

/-- The array with `v` at index `i` and every other element as it was. -/
def Vec.set {α : Type} (a : Vec α) (i : Nat) (v : α) : Vec α :=
  ⟨a.size, fun j => if j = i then v else a.cell j⟩

/-- The call `std::vector::resize(n, v)`: the first `n` elements are kept and
the vector is filled up to length `n` with copies of `v`. -/
def Vec.resize {α : Type} (a : Vec α) (n : Nat) (v : α) : Vec α :=
  ⟨n, fun j => if j < min a.size n then a.cell j else v⟩

/-- The struct `attribute_t` (lines 162-188).  A `unique_ptr<T[]>` is `none`
when null and otherwise the array it owns. -/
structure attribute_t where
  type : attribute_type
  uint8_null_value : Nat := 0
  uint16_null_value : Nat := 0
  uint32_null_value : Nat := 0
  uint64_null_value : Nat := 0
  int8_null_value : Int := 0
  int16_null_value : Int := 0
  int32_null_value : Int := 0
  int64_null_value : Int := 0
  float32_null_value : Float32 := ⟨0⟩
  float64_null_value : Float64 := ⟨0⟩
  string_null_value : String := ""
  uint8_array : Option (Vec Nat) := none
  uint16_array : Option (Vec Nat) := none
  uint32_array : Option (Vec Nat) := none
  uint64_array : Option (Vec Nat) := none
  int8_array : Option (Vec Int) := none
  int16_array : Option (Vec Int) := none
  int32_array : Option (Vec Int) := none
  int64_array : Option (Vec Int) := none
  float32_array : Option (Vec Float32) := none
  float64_array : Option (Vec Float64) := none
  string_arena : Option Arena := none
  string_array : Vec StringRef := ⟨0, fun _ => ⟨CharPtr.null_value_data, 0⟩⟩

/-- The read `array[i]` through a `unique_ptr<T[]>`: undefined when the
pointer is null or `i` is not an index of the array. -/
def readAt {α : Type} (array : Option (Vec α)) (i : Nat) : Except Fault α :=
  match array with
  | none => .error .UNDEFINED
  | some a =>
    match a.get? i with
    | some v => .ok v
    | none => .error .UNDEFINED

/-- The write `array[i] = v` through a `unique_ptr<T[]>`: the array afterwards,
or `none` when the write is undefined (null pointer, `i` outside the array). -/
def writeAt {α : Type} (array : Option (Vec α)) (i : Nat) (v : α) : Option (Vec α) :=
  match array with
  | none => none
  | some a => if i < a.size then some (a.set i v) else none

/-- The call `new T[max_array_size]` followed by `std::fill` over the whole
array. -/
def filled {α : Type} (v : α) : Option (Vec α) := some (Vec.fill max_array_size v)

/-- The expression `StringRef{string_null_value.data(), string_null_value.size()}`. -/
def null_ref (string_null_value : String) : StringRef :=
  ⟨CharPtr.null_value_data, string_null_value.utf8ByteSize⟩

/-- Promotes a parsed value, or throws. -/
def parsed {α : Type} (r : Option α) : Except Fault α :=
  match r with
  | some v => .ok v
  | none => .error .CANNOT_PARSE

/-- The method `createAttributeWithType` (lines 190-256).  `attribute_t attr{type}`
leaves every other member zero, null or empty.  The result is the local `attr`
as line 255 returns it; the references of line 249 point into it. -/
def createAttributeWithType (E : Env) (type : attribute_type) (null_value : String) :
    Except Fault attribute_t :=
  let attr : attribute_t := { type := type }
  match type with
  | .uint8 => do
    let v ← parsed (E.parseUInt 8 null_value)
    pure { attr with uint8_null_value := castUInt 8 v, uint8_array := filled (castUInt 8 v) }
  | .uint16 => do
    let v ← parsed (E.parseUInt 16 null_value)
    pure { attr with uint16_null_value := castUInt 16 v, uint16_array := filled (castUInt 16 v) }
  | .uint32 => do
    let v ← parsed (E.parseUInt 32 null_value)
    pure { attr with uint32_null_value := castUInt 32 v, uint32_array := filled (castUInt 32 v) }
  | .uint64 => do
    let v ← parsed (E.parseUInt 64 null_value)
    pure { attr with uint64_null_value := castUInt 64 v, uint64_array := filled (castUInt 64 v) }
  | .int8 => do
    let v ← parsed (E.parseInt 8 null_value)
    pure { attr with int8_null_value := castInt 8 v, int8_array := filled (castInt 8 v) }
  | .int16 => do
    let v ← parsed (E.parseInt 16 null_value)
    pure { attr with int16_null_value := castInt 16 v, int16_array := filled (castInt 16 v) }
  | .int32 => do
    let v ← parsed (E.parseInt 32 null_value)
    pure { attr with int32_null_value := castInt 32 v, int32_array := filled (castInt 32 v) }
  | .int64 => do
    let v ← parsed (E.parseInt 64 null_value)
    pure { attr with int64_null_value := castInt 64 v, int64_array := filled (castInt 64 v) }
  | .float32 => do
    let v ← parsed (E.parseFloat32 null_value)
    pure { attr with float32_null_value := v, float32_array := filled v }
  | .float64 => do
    let v ← parsed (E.parseFloat64 null_value)
    pure { attr with float64_null_value := v, float64_array := filled v }
  | .string =>
    pure { attr with
      string_null_value := null_value
      string_arena := some []
      string_array := attr.string_array.resize initial_array_size (null_ref null_value) }

/-- The outcome of an array write inside `setAttributeValue`: the attribute
with the new array, or the attribute as it was and `UNDEFINED`. -/
def stored {α : Type} (attr : attribute_t) (written : Option (Vec α))
    (put : Vec α → attribute_t) : attribute_t × Except Fault Unit :=
  match written with
  | some l => (put l, .ok ())
  | none => (attr, .error .UNDEFINED)

/-- The method `setAttributeValue` (lines 258-295): the attribute after the
call and whether the call threw.  The products `2 * current_size` and `2 * id`
are taken in `std::size_t`; `id` is below `max_array_size` there and a vector
is far shorter than `2^63`, so they do not wrap. -/
def setAttributeValue (E : Env) (attr : attribute_t) (id : Nat) (value : Field) :
    attribute_t × Except Fault Unit :=
  if id ≥ max_array_size then
    (attr, .error .ARGUMENT_OUT_OF_BOUND)
  else
    match attr.type with
    | .uint8 =>
      stored attr (writeAt attr.uint8_array id (castUInt 8 value.get_UInt64))
        fun l => { attr with uint8_array := some l }
    | .uint16 =>
      stored attr (writeAt attr.uint16_array id (castUInt 16 value.get_UInt64))
        fun l => { attr with uint16_array := some l }
    | .uint32 =>
      stored attr (writeAt attr.uint32_array id (castUInt 32 value.get_UInt64))
        fun l => { attr with uint32_array := some l }
    | .uint64 =>
      stored attr (writeAt attr.uint64_array id (castUInt 64 value.get_UInt64))
        fun l => { attr with uint64_array := some l }
    | .int8 =>
      stored attr (writeAt attr.int8_array id (castInt 8 value.get_Int64))
        fun l => { attr with int8_array := some l }
    | .int16 =>
      stored attr (writeAt attr.int16_array id (castInt 16 value.get_Int64))
        fun l => { attr with int16_array := some l }
    | .int32 =>
      stored attr (writeAt attr.int32_array id (castInt 32 value.get_Int64))
        fun l => { attr with int32_array := some l }
    | .int64 =>
      stored attr (writeAt attr.int64_array id (castInt 64 value.get_Int64))
        fun l => { attr with int64_array := some l }
    | .float32 =>
      stored attr (writeAt attr.float32_array id (E.toFloat32 value.get_Float64))
        fun l => { attr with float32_array := some l }
    | .float64 =>
      stored attr (writeAt attr.float64_array id value.get_Float64)
        fun l => { attr with float64_array := some l }
    | .string =>
      let string := value.get_String
      match attr.string_arena with
      | none => (attr, .error .UNDEFINED)
      | some arena =>
        let string_in_arena := (arena.insert string).1
        let inserted := { attr with string_arena := some (arena.insert string).2 }
        let current_size := attr.string_array.size
        let grown :=
          if id ≥ current_size then
            { inserted with
              string_array := attr.string_array.resize
                (min max_array_size (if 2 * current_size > id then 2 * current_size else 2 * id))
                (null_ref attr.string_null_value) }
          else inserted
        stored grown (writeAt (some grown.string_array) id ⟨string_in_arena, string.utf8ByteSize⟩)
          fun l => { grown with string_array := l }

/-- A `StringRef` of an `attribute_t` after the object was moved: the bytes of
the reference are copied as they are, so a pointer into the old object's
`string_null_value` still points there. -/
def StringRef.relocated (ref : StringRef) : StringRef :=
  match ref.data with
  | .null_value_data => ⟨CharPtr.moved_from, ref.size⟩
  | _ => ref

/-- The move constructor of `attribute_t`, which is implicitly declared (the
`unique_ptr` members delete the copy constructor): every member is moved.  The
numbers are copied, the arrays and the arena change owner and stay where they
are, the vector keeps its elements, and `string_null_value` is moved into the
`std::string` of the new object. -/
def attribute_t.moved (attr : attribute_t) : attribute_t :=
  { attr with
    string_array :=
      ⟨attr.string_array.size, fun j => (attr.string_array.cell j).relocated⟩ }

/-- Modelled from the spec: an attribute descriptor of the schema (section 6),
declared in `DictionaryStructure.h`, which is not among the sources.  The
header reads its `name`, `type`, `null_value` and `hierarchical`; the type is
held as the kind `getAttributeTypeByName` finds for it, one of the eleven
supported kinds. -/
structure DictionaryAttribute where
  name : String
  type : attribute_type
  null_value : String
  hierarchical : Bool

/-- Modelled from the spec: a `DictionaryStructure`, the ordered list of its
`attributes` (section 6). -/
abbrev DictionaryStructure := List DictionaryAttribute

/-- Modelled from the spec: one row of a block (section 6; `Block` is not among
the sources).  `id` is `id_column[row_idx].get<UInt64>()` and
`value attribute_idx` is `attribute_column[row_idx]` of the column at position
`attribute_idx + 1`. -/
structure Row where
  id : Nat
  value : Nat → Field

/-- Modelled from the spec: a `Block`, held row by row.  Column 0 is the ids
and column `attribute_idx + 1` the values of attribute `attribute_idx`; all
columns of a block have one length (section 6). -/
abbrev Block := List Row

/-- The `std::map` member `attribute_index_by_name`, as its entries. -/
abbrev IndexByName := List (String × Nat)

/-- The call `std::map::emplace`: a key that is present keeps its value. -/
def emplace (m : IndexByName) (name : String) (index : Nat) : IndexByName :=
  match m.lookup name with
  | some _ => m
  | none => m ++ [(name, index)]

/-- The data members of `FlatDictionary` (lines 297-299).  The pointer
`hierarchical_attribute` is null or points at an element of `attributes`, and
is held as that element's index. -/
structure FlatDictionary where
  attribute_index_by_name : IndexByName
  attributes : List attribute_t
  hierarchical_attribute : Option Nat

/-- One round of the loop of lines 24-33.  `emplace_back` constructs the new
element from the `attribute_t` that `createAttributeWithType` returns, with the
move constructor; the vector was reserved at line 23 and does not reallocate. -/
def addAttribute (E : Env) (d : FlatDictionary) (a : DictionaryAttribute) :
    Except Fault FlatDictionary := do
  let index_by_name := emplace d.attribute_index_by_name a.name d.attributes.length
  let created ← createAttributeWithType E a.type a.null_value
  let attributes := d.attributes ++ [created.moved]
  pure
    { attribute_index_by_name := index_by_name
      attributes := attributes
      hierarchical_attribute :=
        if a.hierarchical then some (attributes.length - 1) else d.hierarchical_attribute }

/-- The loop of lines 24-33, from the members as they are default-initialised. -/
def createAttributes (E : Env) (dict_struct : DictionaryStructure) : Except Fault FlatDictionary :=
  dict_struct.foldlM (addAttribute E) ⟨[], [], none⟩

/-- The loop of lines 46-47: the rows of one block written into one attribute,
first row first; an exception ends it. -/
def loadRows (E : Env) (attribute_idx : Nat) (attr : attribute_t) :
    List Row → Except Fault attribute_t
  | [] => .ok attr
  | row :: rows =>
    match setAttributeValue E attr row.id (row.value attribute_idx) with
    | (attr, .ok _) => loadRows E attribute_idx attr rows
    | (_, .error e) => .error e

/-- The loop of lines 41-48 over the attributes from index `attribute_idx` on. -/
def loadColumns (E : Env) (block : Block) (attribute_idx : Nat) :
    List attribute_t → Except Fault (List attribute_t)
  | [] => .ok []
  | attr :: rest => do
    let attr ← loadRows E attribute_idx attr block
    let rest ← loadColumns E block (attribute_idx + 1) rest
    pure (attr :: rest)

/-- The loop of lines 37-49 over the blocks the stream returns before its
empty block. -/
def loadStream (E : Env) (attributes : List attribute_t) :
    List Block → Except Fault (List attribute_t)
  | [] => .ok attributes
  | block :: stream => do
    let attributes ← loadColumns E block 0 attributes
    loadStream E attributes stream

/-- The constructor (lines 19-53) on the blocks of `source_ptr->loadAll()`. -/
def FlatDictionary.construct (E : Env) (dict_struct : DictionaryStructure)
    (stream : List Block) : Except Fault FlatDictionary := do
  let d ← createAttributes E dict_struct
  let attributes ← loadStream E d.attributes stream
  pure { d with attributes := attributes }

/-- The method `getAttributeIndex` (lines 109-119). -/
def FlatDictionary.getAttributeIndex (d : FlatDictionary) (attribute_name : String) :
    Except Fault Nat :=
  match d.attribute_index_by_name.lookup attribute_name with
  | none => .error .BAD_ARGUMENTS
  | some index => .ok index

/-- The access `attributes[idx]`, undefined outside the vector. -/
def FlatDictionary.attributeAt (d : FlatDictionary) (idx : Nat) : Except Fault attribute_t :=
  match d.attributes[idx]? with
  | some attr => .ok attr
  | none => .error .UNDEFINED

/-- The body `DECLARE_SAFE_GETTER` expands to (lines 82-95); `array` and
`null_value` select the members `LC_TYPE##_array` and `LC_TYPE##_null_value`. -/
def DECLARE_SAFE_GETTER {α : Type} (LC_TYPE : attribute_type)
    (array : attribute_t → Option (Vec α)) (null_value : attribute_t → α)
    (d : FlatDictionary) (attribute_name : String) (id : Nat) : Except Fault α := do
  let idx ← d.getAttributeIndex attribute_name
  let attr ← d.attributeAt idx
  if attr.type ≠ LC_TYPE then
    throw .TYPE_MISMATCH
  if id < max_array_size then
    readAt (array attr) id
  else
    pure (null_value attr)

/-- The body `DECLARE_TYPE_CHECKER` expands to (lines 121-125); `UNDEFINED`
when `attributes[attribute_idx]` is outside the vector. -/
def DECLARE_TYPE_CHECKER (LC_NAME : attribute_type) (d : FlatDictionary) (attribute_idx : Nat) :
    Except Fault Bool := do
  let attr ← d.attributeAt attribute_idx
  pure (decide (attr.type = LC_NAME))

/-- The body `DECLARE_UNSAFE_GETTER` expands to (lines 139-144). -/
def DECLARE_UNSAFE_GETTER {α : Type}
    (array : attribute_t → Option (Vec α)) (null_value : attribute_t → α)
    (d : FlatDictionary) (attribute_idx : Nat) (id : Nat) : Except Fault α := do
  let attr ← d.attributeAt attribute_idx
  if id < max_array_size then
    readAt (array attr) id
  else
    pure (null_value attr)

/-- The member `string_array` seen as the other arrays are: a vector is never
a null pointer. -/
def attribute_t.string_refs (attr : attribute_t) : Option (Vec StringRef) :=
  some attr.string_array

/-- The `StringRef` that `return attribute.string_null_value` converts to. -/
def attribute_t.string_null_ref (attr : attribute_t) : StringRef :=
  null_ref attr.string_null_value

namespace FlatDictionary

def getUInt8 := DECLARE_SAFE_GETTER .uint8 (·.uint8_array) (·.uint8_null_value)
def getUInt16 := DECLARE_SAFE_GETTER .uint16 (·.uint16_array) (·.uint16_null_value)
def getUInt32 := DECLARE_SAFE_GETTER .uint32 (·.uint32_array) (·.uint32_null_value)
def getUInt64 := DECLARE_SAFE_GETTER .uint64 (·.uint64_array) (·.uint64_null_value)
def getInt8 := DECLARE_SAFE_GETTER .int8 (·.int8_array) (·.int8_null_value)
def getInt16 := DECLARE_SAFE_GETTER .int16 (·.int16_array) (·.int16_null_value)
def getInt32 := DECLARE_SAFE_GETTER .int32 (·.int32_array) (·.int32_null_value)
def getInt64 := DECLARE_SAFE_GETTER .int64 (·.int64_array) (·.int64_null_value)
def getFloat32 := DECLARE_SAFE_GETTER .float32 (·.float32_array) (·.float32_null_value)
def getFloat64 := DECLARE_SAFE_GETTER .float64 (·.float64_array) (·.float64_null_value)
def getString := DECLARE_SAFE_GETTER .string (·.string_refs) (·.string_null_ref)

def isUInt8 := DECLARE_TYPE_CHECKER .uint8
def isUInt16 := DECLARE_TYPE_CHECKER .uint16
def isUInt32 := DECLARE_TYPE_CHECKER .uint32
def isUInt64 := DECLARE_TYPE_CHECKER .uint64
def isInt8 := DECLARE_TYPE_CHECKER .int8
def isInt16 := DECLARE_TYPE_CHECKER .int16
def isInt32 := DECLARE_TYPE_CHECKER .int32
def isInt64 := DECLARE_TYPE_CHECKER .int64
def isFloat32 := DECLARE_TYPE_CHECKER .float32
def isFloat64 := DECLARE_TYPE_CHECKER .float64
def isString := DECLARE_TYPE_CHECKER .string

def getUInt8Unsafe := DECLARE_UNSAFE_GETTER (·.uint8_array) (·.uint8_null_value)
def getUInt16Unsafe := DECLARE_UNSAFE_GETTER (·.uint16_array) (·.uint16_null_value)
def getUInt32Unsafe := DECLARE_UNSAFE_GETTER (·.uint32_array) (·.uint32_null_value)
def getUInt64Unsafe := DECLARE_UNSAFE_GETTER (·.uint64_array) (·.uint64_null_value)
def getInt8Unsafe := DECLARE_UNSAFE_GETTER (·.int8_array) (·.int8_null_value)
def getInt16Unsafe := DECLARE_UNSAFE_GETTER (·.int16_array) (·.int16_null_value)
def getInt32Unsafe := DECLARE_UNSAFE_GETTER (·.int32_array) (·.int32_null_value)
def getInt64Unsafe := DECLARE_UNSAFE_GETTER (·.int64_array) (·.int64_null_value)
def getFloat32Unsafe := DECLARE_UNSAFE_GETTER (·.float32_array) (·.float32_null_value)
def getFloat64Unsafe := DECLARE_UNSAFE_GETTER (·.float64_array) (·.float64_null_value)
def getStringUnsafe := DECLARE_UNSAFE_GETTER (·.string_refs) (·.string_null_ref)

/-- The method `hasHierarchy` (line 160). -/
def hasHierarchy (d : FlatDictionary) : Bool := d.hierarchical_attribute.isSome

/-- The method `isComplete` (line 158). -/
def isComplete (_d : FlatDictionary) : Bool := true

/-- The method `toParent` (lines 55-80).  Going through a null
`hierarchical_attribute` is undefined. -/
def toParent (d : FlatDictionary) (id : Nat) : Except Fault Nat := do
  let id_exists := decide (id < max_array_size)
  let attr ←
    match d.hierarchical_attribute with
    | none => throw .UNDEFINED
    | some pointee => d.attributeAt pointee
  match attr.type with
  | .uint8 => if id_exists then readAt attr.uint8_array id else pure attr.uint8_null_value
  | .uint16 => if id_exists then readAt attr.uint16_array id else pure attr.uint16_null_value
  | .uint32 => if id_exists then readAt attr.uint32_array id else pure attr.uint32_null_value
  | .uint64 => if id_exists then readAt attr.uint64_array id else pure attr.uint64_null_value
  | .int8 => to_id_t <$> (if id_exists then readAt attr.int8_array id else pure attr.int8_null_value)
  | .int16 => to_id_t <$> (if id_exists then readAt attr.int16_array id else pure attr.int16_null_value)
  | .int32 => to_id_t <$> (if id_exists then readAt attr.int32_array id else pure attr.int32_null_value)
  | .int64 => to_id_t <$> (if id_exists then readAt attr.int64_array id else pure attr.int64_null_value)
  | .float32 => throw .TYPE_MISMATCH
  | .float64 => throw .TYPE_MISMATCH
  | .string => throw .TYPE_MISMATCH

end FlatDictionary

/-- What a getter hands back, with a `StringRef` followed to the bytes it
points at. -/
inductive Datum where
  | uint (v : Nat)
  | int (v : Int)
  | float32 (v : Float32)
  | float64 (v : Float64)
  | string (s : String)
  deriving DecidableEq, Repr

/-- The string a `StringRef` held by `attr` points at.  The references this
file makes span a whole chunk or the whole null value; following any other
one, or one into an object that was moved from, is left undefined. -/
def attribute_t.deref (attr : attribute_t) (ref : StringRef) : Except Fault String :=
  match ref.data with
  | .null_value_data =>
    if ref.size = attr.string_null_value.utf8ByteSize then .ok attr.string_null_value
    else .error .UNDEFINED
  | .moved_from => .error .UNDEFINED
  | .arena chunk =>
    match attr.string_arena with
    | none => .error .UNDEFINED
    | some arena =>
      match arena[chunk]? with
      | some s => if ref.size = s.utf8ByteSize then .ok s else .error .UNDEFINED
      | none => .error .UNDEFINED

/-- The null value of the attribute's own type. -/
def attribute_t.null_value (attr : attribute_t) : Datum :=
  match attr.type with
  | .uint8 => .uint attr.uint8_null_value
  | .uint16 => .uint attr.uint16_null_value
  | .uint32 => .uint attr.uint32_null_value
  | .uint64 => .uint attr.uint64_null_value
  | .int8 => .int attr.int8_null_value
  | .int16 => .int attr.int16_null_value
  | .int32 => .int attr.int32_null_value
  | .int64 => .int attr.int64_null_value
  | .float32 => .float32 attr.float32_null_value
  | .float64 => .float64 attr.float64_null_value
  | .string => .string attr.string_null_value

/-- What `setAttributeValue` stores of a field in a column of type `T`: the
right-hand sides of lines 268-277 and the string of line 280. -/
def converted (E : Env) (T : attribute_type) (value : Field) : Datum :=
  match T with
  | .uint8 => .uint (castUInt 8 value.get_UInt64)
  | .uint16 => .uint (castUInt 16 value.get_UInt64)
  | .uint32 => .uint (castUInt 32 value.get_UInt64)
  | .uint64 => .uint (castUInt 64 value.get_UInt64)
  | .int8 => .int (castInt 8 value.get_Int64)
  | .int16 => .int (castInt 16 value.get_Int64)
  | .int32 => .int (castInt 32 value.get_Int64)
  | .int64 => .int (castInt 64 value.get_Int64)
  | .float32 => .float32 (E.toFloat32 value.get_Float64)
  | .float64 => .float64 value.get_Float64
  | .string => .string value.get_String

namespace FlatDictionary

/-- The string a `StringRef` returned for the attribute at `idx` points at. -/
def derefAt (d : FlatDictionary) (idx : Nat) (ref : StringRef) : Except Fault String := do
  let attr ← d.attributeAt idx
  attr.deref ref

/-- The name-checked getter of type `T`: `get<T>(attribute_name, id)`. -/
def get (d : FlatDictionary) (T : attribute_type) (attribute_name : String) (id : Nat) :
    Except Fault Datum :=
  match T with
  | .uint8 => Datum.uint <$> d.getUInt8 attribute_name id
  | .uint16 => Datum.uint <$> d.getUInt16 attribute_name id
  | .uint32 => Datum.uint <$> d.getUInt32 attribute_name id
  | .uint64 => Datum.uint <$> d.getUInt64 attribute_name id
  | .int8 => Datum.int <$> d.getInt8 attribute_name id
  | .int16 => Datum.int <$> d.getInt16 attribute_name id
  | .int32 => Datum.int <$> d.getInt32 attribute_name id
  | .int64 => Datum.int <$> d.getInt64 attribute_name id
  | .float32 => Datum.float32 <$> d.getFloat32 attribute_name id
  | .float64 => Datum.float64 <$> d.getFloat64 attribute_name id
  | .string => do
    let ref ← d.getString attribute_name id
    let idx ← d.getAttributeIndex attribute_name
    Datum.string <$> d.derefAt idx ref

/-- The index-unchecked getter of type `T`: `getUnsafe<T>(attribute_idx, id)`. -/
def getUnsafe (d : FlatDictionary) (T : attribute_type) (attribute_idx : Nat) (id : Nat) :
    Except Fault Datum :=
  match T with
  | .uint8 => Datum.uint <$> d.getUInt8Unsafe attribute_idx id
  | .uint16 => Datum.uint <$> d.getUInt16Unsafe attribute_idx id
  | .uint32 => Datum.uint <$> d.getUInt32Unsafe attribute_idx id
  | .uint64 => Datum.uint <$> d.getUInt64Unsafe attribute_idx id
  | .int8 => Datum.int <$> d.getInt8Unsafe attribute_idx id
  | .int16 => Datum.int <$> d.getInt16Unsafe attribute_idx id
  | .int32 => Datum.int <$> d.getInt32Unsafe attribute_idx id
  | .int64 => Datum.int <$> d.getInt64Unsafe attribute_idx id
  | .float32 => Datum.float32 <$> d.getFloat32Unsafe attribute_idx id
  | .float64 => Datum.float64 <$> d.getFloat64Unsafe attribute_idx id
  | .string => do
    let ref ← d.getStringUnsafe attribute_idx id
    Datum.string <$> d.derefAt attribute_idx ref

/-- The type predicate of type `T`: `isT(attribute_idx)`. -/
def is (d : FlatDictionary) (T : attribute_type) (attribute_idx : Nat) : Except Fault Bool :=
  match T with
  | .uint8 => d.isUInt8 attribute_idx
  | .uint16 => d.isUInt16 attribute_idx
  | .uint32 => d.isUInt32 attribute_idx
  | .uint64 => d.isUInt64 attribute_idx
  | .int8 => d.isInt8 attribute_idx
  | .int16 => d.isInt16 attribute_idx
  | .int32 => d.isInt32 attribute_idx
  | .int64 => d.isInt64 attribute_idx
  | .float32 => d.isFloat32 attribute_idx
  | .float64 => d.isFloat64 attribute_idx
  | .string => d.isString attribute_idx

end FlatDictionary

/-- The length of an array behind a `unique_ptr<T[]>`, `0` for a null pointer. -/
def lengthOf {α : Type} (array : Option (Vec α)) : Nat :=
  match array with
  | some a => a.size
  | none => 0

/-- The length of the array of the attribute's own type. -/
def attribute_t.len (attr : attribute_t) : Nat :=
  match attr.type with
  | .uint8 => lengthOf attr.uint8_array
  | .uint16 => lengthOf attr.uint16_array
  | .uint32 => lengthOf attr.uint32_array
  | .uint64 => lengthOf attr.uint64_array
  | .int8 => lengthOf attr.int8_array
  | .int16 => lengthOf attr.int16_array
  | .int32 => lengthOf attr.int32_array
  | .int64 => lengthOf attr.int64_array
  | .float32 => lengthOf attr.float32_array
  | .float64 => lengthOf attr.float64_array
  | .string => attr.string_array.size

/-- The element at index `id` of the array of the attribute's own type, a
string reference followed to its bytes. -/
def attribute_t.slot (attr : attribute_t) (id : Nat) : Except Fault Datum :=
  match attr.type with
  | .uint8 => Datum.uint <$> readAt attr.uint8_array id
  | .uint16 => Datum.uint <$> readAt attr.uint16_array id
  | .uint32 => Datum.uint <$> readAt attr.uint32_array id
  | .uint64 => Datum.uint <$> readAt attr.uint64_array id
  | .int8 => Datum.int <$> readAt attr.int8_array id
  | .int16 => Datum.int <$> readAt attr.int16_array id
  | .int32 => Datum.int <$> readAt attr.int32_array id
  | .int64 => Datum.int <$> readAt attr.int64_array id
  | .float32 => Datum.float32 <$> readAt attr.float32_array id
  | .float64 => Datum.float64 <$> readAt attr.float64_array id
  | .string => do
    let ref ← readAt attr.string_refs id
    Datum.string <$> attr.deref ref

/-- The state a column is in from its creation on: a numeric array has
`max_array_size` elements, a string column has its arena and between
`initial_array_size` and `max_array_size` references, and every element of the
array can be read or is a reference that a move of the column left behind. -/
def attribute_t.WF (attr : attribute_t) : Prop :=
  (attr.type ≠ .string → attr.len = max_array_size) ∧
  (attr.type = .string →
    attr.string_arena ≠ none ∧ initial_array_size ≤ attr.len ∧ attr.len ≤ max_array_size) ∧
  ∀ id, id < attr.len →
    (∃ v, attr.slot id = .ok v) ∨
      (attr.type = .string ∧ (attr.string_array.cell id).data = CharPtr.moved_from)

/-- The rows of a stream in the order the loader meets them. -/
def rowsOf (stream : List Block) : List Row := stream.flatten

/-- The last row of the stream that has the given id. -/
def lastRow (stream : List Block) (id : Nat) : Option Row :=
  (rowsOf stream).reverse.find? (fun row => decide (row.id = id))

/-- The schema's hierarchical attribute is `a`, at position `h`: it is marked
and no attribute after it is.  (The spec, section 6, lets at most one
attribute be marked; line 32 overwrites the pointer at every marked one, so
the last would stand.) -/
def marks_hierarchical (dict_struct : DictionaryStructure) (h : Nat) (a : DictionaryAttribute) :
    Prop :=
  dict_struct[h]? = some a ∧ a.hierarchical = true ∧
    ∀ (j : Nat) (b : DictionaryAttribute), h < j → dict_struct[j]? = some b → b.hierarchical = false

/-- The integer kinds, those `toParent` returns a value for. -/
def attribute_type.is_integer (T : attribute_type) : Bool :=
  match T with
  | .uint8 | .uint16 | .uint32 | .uint64 | .int8 | .int16 | .int32 | .int64 => true
  | .float32 | .float64 | .string => false

/-- The conversion of an integer datum to `id_t` at the `return` of `toParent`. -/
def Datum.to_id (v : Datum) : Nat :=
  match v with
  | .uint v => v
  | .int v => to_id_t v
  | _ => 0

/-- The text is one that the `DB::parse` of the type returns a value for.  A
string null value is copied and not parsed. -/
def accepts (E : Env) (T : attribute_type) (text : String) : Bool :=
  match T with
  | .uint8 => (E.parseUInt 8 text).isSome
  | .uint16 => (E.parseUInt 16 text).isSome
  | .uint32 => (E.parseUInt 32 text).isSome
  | .uint64 => (E.parseUInt 64 text).isSome
  | .int8 => (E.parseInt 8 text).isSome
  | .int16 => (E.parseInt 16 text).isSome
  | .int32 => (E.parseInt 32 text).isSome
  | .int64 => (E.parseInt 64 text).isSome
  | .float32 => (E.parseFloat32 text).isSome
  | .float64 => (E.parseFloat64 text).isSome
  | .string => true

/-- Every null value of the schema is accepted by the `DB::parse` of its
attribute's type. -/
def parses (E : Env) (dict_struct : DictionaryStructure) : Prop :=
  ∀ a ∈ dict_struct, accepts E a.type a.null_value = true

instance decEqExcept {ε α : Type} [DecidableEq ε] [DecidableEq α] : DecidableEq (Except ε α)
  | .ok a, .ok b =>
    if h : a = b then isTrue (by rw [h]) else isFalse (fun h2 => h (Except.ok.inj h2))
  | .error a, .error b =>
    if h : a = b then isTrue (by rw [h]) else isFalse (fun h2 => h (Except.error.inj h2))
  | .ok _, .error _ => isFalse (fun h => Except.noConfusion h)
  | .error _, .ok _ => isFalse (fun h => Except.noConfusion h)

/-- The number a list of decimal digits writes, after the digits read so far. -/
def decimal (acc : Nat) : List Char → Option Nat
  | [] => some acc
  | c :: cs =>
    if 48 ≤ c.toNat ∧ c.toNat ≤ 57 then decimal (acc * 10 + (c.toNat - 48)) cs else none

/-- The number a non-empty decimal numeral writes. -/
def parseDecimal (s : String) : Option Nat :=
  match s.data with
  | [] => none
  | cs => decimal 0 cs

/-- The integer a decimal numeral with an optional minus sign writes. -/
def parseSigned (s : String) : Option Int :=
  match s.data with
  | [] => none
  | c :: cs =>
    if c.toNat = 45 then
      match cs with
      | [] => none
      | _ => (decimal 0 cs).map (fun n => - (n : Int))
    else (decimal 0 (c :: cs)).map (fun n => (n : Int))

/-- An environment for the examples: decimal numerals, a float held as the
numeral of its bit pattern, and the low 32 bits for the narrowing of a double. -/
def decimalEnv : Env where
  parseUInt := fun _ s => parseDecimal s
  parseInt := fun _ s => parseSigned s
  parseFloat32 := fun s => (parseDecimal s).map Float32.mk
  parseFloat64 := fun s => (parseDecimal s).map Float64.mk
  toFloat32 := fun f => ⟨f.bits % 2 ^ 32⟩

/-- A field that holds an unsigned integer. -/
def Field.ofUInt64 (v : Nat) : Field := ⟨v, v, ⟨v⟩, ""⟩

/-- A field that holds a string. -/
def Field.ofString (s : String) : Field := ⟨0, 0, ⟨0⟩, s⟩

/-- A schema with one hierarchical `uint32` attribute and one string attribute. -/
def regions : DictionaryStructure :=
  [⟨"parent", .uint32, "0", true⟩, ⟨"title", .string, "none", false⟩]

/-- A row of `regions`. -/
def regionRow (id parent : Nat) (title : String) : Row :=
  ⟨id, fun attribute_idx => if attribute_idx = 0 then Field.ofUInt64 parent else Field.ofString title⟩

/-- Two blocks for `regions`; id 5 occurs in both. -/
def regionBlocks : List Block :=
  [[regionRow 5 1 "five", regionRow 2 0 "two"], [regionRow 5 2 "FIVE"]]

/-- The signed integer kinds. -/
def attribute_type.is_signed (T : attribute_type) : Bool :=
  match T with
  | .int8 | .int16 | .int32 | .int64 => true
  | _ => false

/-- A field that holds a signed integer. -/
def Field.ofInt64 (v : Int) : Field := ⟨0, v, ⟨0⟩, ""⟩

/-- A schema with one string attribute. -/
def titles : DictionaryStructure := [⟨"title", .string, "none", false⟩]

/-- A row of `titles`. -/
def titleRow (id : Nat) (title : String) : Row := ⟨id, fun _ => Field.ofString title⟩

/-- Rows for `titles` with the ids 1000, 0 and 5, in that order. -/
def titleBlocks : List Block :=
  [[titleRow 1000 "thousand", titleRow 0 "zero"], [titleRow 5 "five"]]

/-- A schema whose hierarchical attribute is a signed byte. -/
def ancestors : DictionaryStructure := [⟨"parent", .int8, "-1", true⟩]

/-- Rows for `ancestors`: id 3 has parent -2 and id 4 has parent 3. -/
def ancestorBlocks : List Block :=
  [[⟨3, fun _ => Field.ofInt64 (-2)⟩, ⟨4, fun _ => Field.ofInt64 3⟩]]

/-- The rows of `regionBlocks` in one block. -/
def regionBlocksMerged : List Block :=
  [[regionRow 5 1 "five", regionRow 2 0 "two", regionRow 5 2 "FIVE"]]

/-! ## Lemmas -/

theorem readAt_eq {α : Type} (array : Option (Vec α)) (i : Nat) :
    readAt array i = match array with
      | none => .error .UNDEFINED
      | some a => if i < a.size then .ok (a.cell i) else .error .UNDEFINED := by
  cases array with
  | none => rfl
  | some a =>
    simp only [readAt, Vec.get?]
    split_ifs <;> rfl

theorem deref_null_ref (attr : attribute_t) :
    attr.deref attr.string_null_ref = .ok attr.string_null_value := by
  simp [attribute_t.deref, attribute_t.string_null_ref, null_ref]

theorem safe_getter_eq {α : Type} (LC_TYPE : attribute_type)
    (array : attribute_t → Option (Vec α)) (null_value : attribute_t → α)
    (d : FlatDictionary) (name : String) (id idx : Nat) (attr : attribute_t)
    (hidx : d.getAttributeIndex name = .ok idx) (hattr : d.attributeAt idx = .ok attr) :
    DECLARE_SAFE_GETTER LC_TYPE array null_value d name id =
      if attr.type ≠ LC_TYPE then .error .TYPE_MISMATCH
      else if id < max_array_size then readAt (array attr) id else .ok (null_value attr) := by
  by_cases h : attr.type = LC_TYPE
  · simp [DECLARE_SAFE_GETTER, hidx, hattr, bind, Except.bind, pure, Except.pure, h]
  · simp [DECLARE_SAFE_GETTER, hidx, hattr, bind, Except.bind, pure, Except.pure, h, throw,
      throwThe, MonadExceptOf.throw]

theorem get_eq (d : FlatDictionary) (T : attribute_type) (name : String) (id idx : Nat)
    (attr : attribute_t) (hidx : d.getAttributeIndex name = .ok idx)
    (hattr : d.attributeAt idx = .ok attr) :
    d.get T name id =
      if attr.type ≠ T then .error .TYPE_MISMATCH
      else if id < max_array_size then attr.slot id else .ok attr.null_value := by
  by_cases hT : attr.type = T <;> by_cases hid : id < max_array_size <;> cases T <;>
    simp [FlatDictionary.get, FlatDictionary.getUInt8, FlatDictionary.getUInt16,
      FlatDictionary.getUInt32, FlatDictionary.getUInt64, FlatDictionary.getInt8,
      FlatDictionary.getInt16, FlatDictionary.getInt32, FlatDictionary.getInt64,
      FlatDictionary.getFloat32, FlatDictionary.getFloat64, FlatDictionary.getString,
      safe_getter_eq _ _ _ d name id idx attr hidx hattr,
      hT, hid, attribute_t.slot, attribute_t.null_value, Functor.map, Except.map,
      bind, Except.bind, hidx, FlatDictionary.derefAt, hattr, deref_null_ref]

theorem lengthOf_max {α : Type} {array : Option (Vec α)} (h : lengthOf array = max_array_size) :
    ∃ a, array = some a ∧ a.size = max_array_size := by
  cases array with
  | none => simp [lengthOf, max_array_size] at h
  | some a => exact ⟨a, rfl, h⟩

set_option maxHeartbeats 1000000 in
theorem set_numeric (E : Env) (attr : attribute_t) (id : Nat) (value : Field)
    (hwf : attr.WF) (hid : id < max_array_size) (hty : attr.type ≠ .string) :
    (setAttributeValue E attr id value).2 = .ok () ∧
    (setAttributeValue E attr id value).1.type = attr.type ∧
    (setAttributeValue E attr id value).1.null_value = attr.null_value ∧
    (setAttributeValue E attr id value).1.len = attr.len ∧
    (∀ j, (setAttributeValue E attr id value).1.slot j =
      if j = id then .ok (converted E attr.type value) else attr.slot j) := by
  obtain ⟨hnum, -, -⟩ := hwf
  have hlen := hnum hty
  have hid' : ¬ (id ≥ max_array_size) := by omega
  cases h : attr.type <;> simp only [attribute_t.len, h] at hlen <;>
    first
    | exact absurd h hty
    | (obtain ⟨a, harr, hsz⟩ := lengthOf_max hlen
       have hid2 : id < a.size := by omega
       simp [setAttributeValue, hid', h, harr, stored, writeAt, hid2, attribute_t.null_value,
         attribute_t.len, lengthOf, Vec.set, attribute_t.slot, readAt_eq, converted,
         Functor.map, Except.map]
       intro j
       by_cases hj : j = id <;> simp [hj, hid2])

theorem deref_mono (attr attr2 : attribute_t) (arena : Arena) (s v : String) (ref : StringRef)
    (hnull : attr2.string_null_value = attr.string_null_value)
    (ha : attr.string_arena = some arena) (ha2 : attr2.string_arena = some (arena ++ [s]))
    (h : attr.deref ref = .ok v) : attr2.deref ref = .ok v := by
  unfold attribute_t.deref at h ⊢
  cases hd : ref.data with
  | null_value_data => simpa [hd, hnull] using h
  | moved_from => simp [hd] at h
  | arena chunk =>
    simp only [hd, ha, ha2] at h ⊢
    cases hc : arena[chunk]? with
    | none => simp [hc] at h
    | some s2 =>
      have hlt : chunk < arena.length := by
        by_contra hge
        have := List.getElem?_eq_none (l := arena) (n := chunk) (by omega)
        simp [this] at hc
      have : (arena ++ [s])[chunk]? = some s2 := by
        rw [List.getElem?_append_left hlt]; exact hc
      simpa [this, hc] using h

theorem deref_new (attr2 : attribute_t) (arena : Arena) (s : String)
    (ha2 : attr2.string_arena = some (arena ++ [s])) :
    attr2.deref ⟨CharPtr.arena arena.length, s.utf8ByteSize⟩ = .ok s := by
  simp [attribute_t.deref, ha2]

theorem deref_null (attr2 : attribute_t) (s : String) (h : attr2.string_null_value = s) :
    attr2.deref (null_ref s) = .ok s := by
  simp [attribute_t.deref, null_ref, h]

theorem slot_string (attr : attribute_t) (hty : attr.type = .string) (j : Nat) :
    attr.slot j =
      if j < attr.string_array.size then Datum.string <$> attr.deref (attr.string_array.cell j)
      else .error .UNDEFINED := by
  simp only [attribute_t.slot, hty, attribute_t.string_refs, readAt_eq]
  split_ifs <;> rfl

/-- The length the reference array has after lines 283-289. -/
theorem grown_size (size id : Nat) (hlo : 128 ≤ size) (hid : id < max_array_size) :
    id < (if id ≥ size then min max_array_size (if 2 * size > id then 2 * size else 2 * id)
      else size) := by
  simp only [max_array_size] at *
  split_ifs <;> omega

theorem set_string_eq (E : Env) (attr : attribute_t) (id : Nat) (value : Field) (arena : Arena)
    (hid : id < max_array_size) (hty : attr.type = .string) (ha : attr.string_arena = some arena)
    (hlo : 128 ≤ attr.string_array.size) :
    setAttributeValue E attr id value =
      ({ attr with
          string_arena := some (arena ++ [value.get_String])
          string_array :=
            (if id ≥ attr.string_array.size then
              attr.string_array.resize
                (min max_array_size
                  (if 2 * attr.string_array.size > id then 2 * attr.string_array.size else 2 * id))
                (null_ref attr.string_null_value)
             else attr.string_array).set id
              ⟨CharPtr.arena arena.length, value.get_String.utf8ByteSize⟩ }, .ok ()) := by
  have hid' : ¬ (id ≥ max_array_size) := by omega
  have hg := grown_size attr.string_array.size id hlo hid
  by_cases hgrow : id ≥ attr.string_array.size
  · simp only [hgrow, if_true] at hg
    simp only [setAttributeValue, hid', hty, ha, stored, writeAt, hgrow, Arena.insert,
      Vec.resize, if_true, if_false, hg]
  · have hlt : id < attr.string_array.size := by omega
    simp only [setAttributeValue, hid', hty, ha, stored, writeAt, hgrow, Arena.insert,
      if_true, if_false, hlt]

theorem grown_cell (a : Vec StringRef) (id j : Nat) (v : StringRef) (hlo : 128 ≤ a.size)
    (hid : id < max_array_size)
    (hj : j < (if id ≥ a.size then
        a.resize (min max_array_size (if 2 * a.size > id then 2 * a.size else 2 * id)) v
      else a).size) :
    (if id ≥ a.size then
        a.resize (min max_array_size (if 2 * a.size > id then 2 * a.size else 2 * id)) v
      else a).cell j = if j < a.size then a.cell j else v := by
  have hg := grown_size a.size id hlo hid
  by_cases hgrow : id ≥ a.size
  · simp only [hgrow, if_true, Vec.resize] at hg hj ⊢
    by_cases hjs : j < a.size
    · rw [if_pos (by omega), if_pos hjs]
    · rw [if_neg (by omega), if_neg hjs]
  · simp only [hgrow, if_false] at hj ⊢
    rw [if_pos hj]

theorem slot_after (attr attr2 : attribute_t) (arena : Arena) (s : String) (id : Nat)
    (G : Vec StringRef) (hty : attr.type = .string) (hty2 : attr2.type = .string)
    (hnull : attr2.string_null_value = attr.string_null_value)
    (ha : attr.string_arena = some arena) (ha2 : attr2.string_arena = some (arena ++ [s]))
    (harr : attr2.string_array = G.set id ⟨CharPtr.arena arena.length, s.utf8ByteSize⟩)
    (hG : ∀ j, j < G.size → G.cell j =
      if j < attr.string_array.size then attr.string_array.cell j
      else null_ref attr.string_null_value)
    (hslot : ∀ j, j < attr.string_array.size →
      (∃ v, attr.slot j = .ok v) ∨ (attr.string_array.cell j).data = CharPtr.moved_from)
    (j : Nat) (hj : j < G.size) :
    attr2.slot j =
      if j = id then .ok (.string s)
      else if j < attr.string_array.size then attr.slot j
      else .ok (.string attr.string_null_value) := by
  rw [slot_string attr2 hty2, harr]
  simp only [Vec.set, hj, if_true]
  by_cases hji : j = id
  · simp only [hji, if_true]
    rw [deref_new attr2 arena s ha2]
    rfl
  · simp only [hji, if_false]
    rw [hG j hj]
    by_cases hjs : j < attr.string_array.size
    · simp only [hjs, if_true]
      rw [slot_string attr hty]
      simp only [hjs, if_true]
      rcases hslot j hjs with ⟨v, hv⟩ | hm
      · rw [slot_string attr hty] at hv
        simp only [hjs, if_true] at hv
        cases hd : attr.deref (attr.string_array.cell j) with
        | error e => simp [hd, Functor.map, Except.map] at hv
        | ok w => rw [deref_mono attr attr2 arena s w _ hnull ha ha2 hd]
      · simp only [attribute_t.deref, hm]
    · simp only [hjs, if_false]
      rw [deref_null attr2 _ hnull]
      rfl

theorem set_string (E : Env) (attr : attribute_t) (id : Nat) (value : Field)
    (hwf : attr.WF) (hid : id < max_array_size) (hty : attr.type = .string) :
    (setAttributeValue E attr id value).2 = .ok () ∧
    (setAttributeValue E attr id value).1.type = attr.type ∧
    (setAttributeValue E attr id value).1.null_value = attr.null_value ∧
    (setAttributeValue E attr id value).1.string_arena ≠ none ∧
    (setAttributeValue E attr id value).1.len =
      (if id ≥ attr.len then
        min max_array_size (if 2 * attr.len > id then 2 * attr.len else 2 * id)
       else attr.len) ∧
    (∀ j, j < (setAttributeValue E attr id value).1.len →
      (setAttributeValue E attr id value).1.slot j =
        if j = id then .ok (converted E attr.type value)
        else if j < attr.len then attr.slot j else .ok attr.null_value) ∧
    (∀ j, j ≠ id → j < attr.len →
      (setAttributeValue E attr id value).1.string_array.cell j = attr.string_array.cell j) := by
  obtain ⟨-, hstr, hslot0⟩ := hwf
  obtain ⟨harena, hlo, hhi⟩ := hstr hty
  have hslot : ∀ j, j < attr.string_array.size →
      (∃ v, attr.slot j = .ok v) ∨ (attr.string_array.cell j).data = CharPtr.moved_from := by
    intro j hj
    exact (hslot0 j (by simpa only [attribute_t.len, hty] using hj)).imp (fun h => h)
      (fun h => h.2)
  simp only [attribute_t.len, hty] at hlo hhi
  obtain ⟨arena, ha⟩ := Option.ne_none_iff_exists'.mp harena
  simp only [initial_array_size] at hlo
  have heq := set_string_eq E attr id value arena hid hty ha hlo
  have h2 : (setAttributeValue E attr id value).2 = .ok () := by rw [heq]
  have hty2 : (setAttributeValue E attr id value).1.type = attr.type := by rw [heq]
  have hnull : (setAttributeValue E attr id value).1.string_null_value =
      attr.string_null_value := by rw [heq]
  have ha2 : (setAttributeValue E attr id value).1.string_arena =
      some (arena ++ [value.get_String]) := by rw [heq]
  have harr : (setAttributeValue E attr id value).1.string_array =
      (if id ≥ attr.string_array.size then
        attr.string_array.resize
          (min max_array_size
            (if 2 * attr.string_array.size > id then 2 * attr.string_array.size else 2 * id))
          (null_ref attr.string_null_value)
       else attr.string_array).set id
        ⟨CharPtr.arena arena.length, value.get_String.utf8ByteSize⟩ := by rw [heq]
  have hlen : (setAttributeValue E attr id value).1.len =
      (if id ≥ attr.string_array.size then
        min max_array_size
          (if 2 * attr.string_array.size > id then 2 * attr.string_array.size else 2 * id)
       else attr.string_array.size) := by
    simp only [attribute_t.len, hty2, hty, harr, Vec.set]
    split_ifs <;> rfl
  refine ⟨h2, hty2, ?_, by simp [ha2], ?_, ?_, ?_⟩
  · simp only [attribute_t.null_value, hty2, hty, hnull]
  · simpa only [attribute_t.len, hty] using hlen
  rotate_left
  · intro j hji hjl
    simp only [attribute_t.len, hty] at hjl
    rw [harr]
    simp only [Vec.set, hji, if_false]
    have hg := grown_size attr.string_array.size id hlo hid
    by_cases hgrow : id ≥ attr.string_array.size
    · simp only [hgrow, if_true, Vec.resize] at hg ⊢
      rw [if_pos (by omega)]
    · simp only [hgrow, if_false]
  · intro j hj
    rw [hlen] at hj
    have hj2 : j < (if id ≥ attr.string_array.size then
        attr.string_array.resize
          (min max_array_size
            (if 2 * attr.string_array.size > id then 2 * attr.string_array.size else 2 * id))
          (null_ref attr.string_null_value)
       else attr.string_array).size := by
      by_cases hg : id ≥ attr.string_array.size
      · rw [if_pos hg] at hj ⊢
        exact hj
      · rw [if_neg hg] at hj ⊢
        exact hj
    rw [slot_after attr _ arena value.get_String id _ hty (hty2.trans hty) hnull ha ha2 harr
      (fun j hj => grown_cell attr.string_array id j _ hlo hid hj) hslot j hj2]
    simp only [converted, hty, attribute_t.null_value, attribute_t.len, Field.get_String]

theorem set_spec (E : Env) (attr : attribute_t) (id : Nat) (value : Field)
    (hwf : attr.WF) (hid : id < max_array_size) :
    (setAttributeValue E attr id value).2 = .ok () ∧
    (setAttributeValue E attr id value).1.WF ∧
    (setAttributeValue E attr id value).1.type = attr.type ∧
    (setAttributeValue E attr id value).1.null_value = attr.null_value ∧
    attr.len ≤ (setAttributeValue E attr id value).1.len ∧
    id < (setAttributeValue E attr id value).1.len ∧
    (∀ j, j < (setAttributeValue E attr id value).1.len →
      (setAttributeValue E attr id value).1.slot j =
        if j = id then .ok (converted E attr.type value)
        else if j < attr.len then attr.slot j else .ok attr.null_value) := by
  have hwf0 := hwf
  obtain ⟨hnum, hstr, hslot⟩ := hwf
  by_cases hty : attr.type = .string
  · obtain ⟨h2, ht, hn, ha, hl, hs, hcell⟩ := set_string E attr id value hwf0 hid hty
    obtain ⟨-, hlo, hhi⟩ := hstr hty
    have hg := grown_size attr.len id hlo hid
    rw [← hl] at hg
    have hle : attr.len ≤ (setAttributeValue E attr id value).1.len := by
      rw [hl]; simp only [max_array_size] at *; split_ifs <;> omega
    have hle2 : (setAttributeValue E attr id value).1.len ≤ max_array_size := by
      rw [hl]; simp only [max_array_size] at *; split_ifs <;> omega
    refine ⟨h2, ⟨fun h => absurd (ht.trans hty) h, fun _ => ⟨ha, by omega, hle2⟩, ?_⟩,
      ht, hn, hle, hg, hs⟩
    intro j hj
    rw [hs j hj]
    split_ifs with h1 h2
    · exact Or.inl ⟨_, rfl⟩
    · rcases hslot j h2 with hv | hm
      · exact Or.inl hv
      · exact Or.inr ⟨ht.trans hty, by rw [hcell j h1 h2]; exact hm.2⟩
    · exact Or.inl ⟨_, rfl⟩
  · obtain ⟨h2, ht, hn, hl, hs⟩ := set_numeric E attr id value hwf0 hid hty
    have hlen := hnum hty
    refine ⟨h2, ⟨fun _ => hl.trans hlen, fun h => absurd (ht.symm.trans h) hty, ?_⟩,
      ht, hn, by omega, by omega, ?_⟩
    · intro j hj
      rw [hs j]
      split_ifs with h1
      · exact Or.inl ⟨_, rfl⟩
      · exact Or.inl ((hslot j (by omega)).resolve_right (fun h => hty h.1))
    · intro j hj
      rw [hs j]
      have : j < attr.len := by omega
      simp [this]

theorem set_out_of_bound (E : Env) (attr : attribute_t) (id : Nat) (value : Field)
    (hid : max_array_size ≤ id) :
    setAttributeValue E attr id value = (attr, .error .ARGUMENT_OUT_OF_BOUND) := by
  simp [setAttributeValue, hid]

theorem loadRows_append (E : Env) (idx : Nat) (attr : attribute_t) (r1 r2 : List Row) :
    loadRows E idx attr (r1 ++ r2) =
      (loadRows E idx attr r1).bind (fun attr1 => loadRows E idx attr1 r2) := by
  induction r1 generalizing attr with
  | nil => rfl
  | cons row rest ih =>
    simp only [List.cons_append, loadRows]
    rcases h : setAttributeValue E attr row.id (row.value idx) with ⟨a1, _ | _⟩
    · rfl
    · exact ih a1

theorem find_last_cons (row : Row) (rest : List Row) (j : Nat) :
    (row :: rest).reverse.find? (fun r => decide (r.id = j)) =
      match rest.reverse.find? (fun r => decide (r.id = j)) with
      | some r => some r
      | none => if row.id = j then some row else none := by
  rw [List.reverse_cons, List.find?_append]
  cases rest.reverse.find? (fun r => decide (r.id = j)) with
  | some r => rfl
  | none =>
    by_cases h : row.id = j <;> simp [List.find?, h]

theorem loadRows_spec (E : Env) (idx : Nat) (rows : List Row) :
    ∀ (attr : attribute_t), attr.WF → (∀ row ∈ rows, row.id < max_array_size) →
      ∃ attr2, loadRows E idx attr rows = .ok attr2 ∧ attr2.WF ∧ attr2.type = attr.type ∧
        attr2.null_value = attr.null_value ∧ attr.len ≤ attr2.len ∧
        (∀ row ∈ rows, row.id < attr2.len) ∧
        ∀ j, j < attr2.len → attr2.slot j =
          match rows.reverse.find? (fun r => decide (r.id = j)) with
          | some row => .ok (converted E attr.type (row.value idx))
          | none => if j < attr.len then attr.slot j else .ok attr.null_value := by
  induction rows with
  | nil =>
    intro attr hwf _
    exact ⟨attr, rfl, hwf, rfl, rfl, le_refl _, by simp, fun j hj => by simp [hj]⟩
  | cons row rest ih =>
    intro attr hwf hids
    obtain ⟨h2, hwf1, ht1, hn1, hl1, hi1, hs1⟩ :=
      set_spec E attr row.id (row.value idx) hwf (hids row (List.mem_cons_self _ _))
    obtain ⟨attr2, hload, hwf2, ht2, hn2, hl2, hi2, hs2⟩ :=
      ih _ hwf1 (fun r hr => hids r (List.mem_cons_of_mem _ hr))
    refine ⟨attr2, ?_, hwf2, ht2.trans ht1, hn2.trans hn1, by omega, ?_, ?_⟩
    · simp only [loadRows]
      rcases h : setAttributeValue E attr row.id (row.value idx) with ⟨a1, _ | _⟩
      · rw [h] at h2; simp at h2
      · rw [h] at hload; exact hload
    · intro r hr
      rcases List.mem_cons.mp hr with h | h
      · subst h; omega
      · exact hi2 r h
    · intro j hj
      rw [hs2 j hj, find_last_cons, ht1, hn1]
      cases rest.reverse.find? (fun r => decide (r.id = j)) with
      | some r => rfl
      | none =>
        simp only
        by_cases hj1 : j < (setAttributeValue E attr row.id (row.value idx)).1.len
        · rw [if_pos hj1, hs1 j hj1]
          by_cases hji : j = row.id
          · subst hji; simp
          · have : ¬ row.id = j := fun h => hji h.symm
            simp [hji, this]
        · rw [if_neg hj1]
          have h1 : ¬ j < attr.len := by omega
          have h3 : ¬ row.id = j := by omega
          simp [h1, h3]

theorem loadRows_out_of_bound (E : Env) (idx : Nat) (rows : List Row) :
    ∀ (attr : attribute_t), attr.WF → (∃ row ∈ rows, max_array_size ≤ row.id) →
      loadRows E idx attr rows = .error .ARGUMENT_OUT_OF_BOUND := by
  induction rows with
  | nil => intro attr _ h; simp at h
  | cons row rest ih =>
    intro attr hwf hbad
    by_cases hid : max_array_size ≤ row.id
    · simp [loadRows, set_out_of_bound E attr row.id _ hid]
    · obtain ⟨h2, hwf1, -⟩ := set_spec E attr row.id (row.value idx) hwf (by omega)
      have hbad2 : ∃ r ∈ rest, max_array_size ≤ r.id := by
        obtain ⟨r, hr, hrid⟩ := hbad
        rcases List.mem_cons.mp hr with h | h
        · subst h; exact absurd hrid hid
        · exact ⟨r, h, hrid⟩
      simp only [loadRows]
      rcases h : setAttributeValue E attr row.id (row.value idx) with ⟨a1, _ | _⟩
      · rw [h] at h2; simp at h2
      · rw [h] at hwf1; exact ih a1 hwf1 hbad2

theorem loadColumns_ok (E : Env) (block : Block) :
    ∀ (attrs : List attribute_t) (k : Nat) (attrs2 : List attribute_t),
      loadColumns E block k attrs = .ok attrs2 →
      attrs2.length = attrs.length ∧
      ∀ i a, attrs[i]? = some a →
        ∃ a2, attrs2[i]? = some a2 ∧ loadRows E (k + i) a block = .ok a2 := by
  intro attrs
  induction attrs with
  | nil =>
    intro k attrs2 h
    simp only [loadColumns, Except.ok.injEq] at h
    subst h
    simp
  | cons a rest ih =>
    intro k attrs2 h
    simp only [loadColumns, bind, Except.bind, pure, Except.pure] at h
    cases h1 : loadRows E k a block with
    | error e => simp [h1] at h
    | ok a2 =>
      cases h2 : loadColumns E block (k + 1) rest with
      | error e => simp [h1, h2] at h
      | ok rest2 =>
        simp only [h1, h2, Except.ok.injEq] at h
        subst h
        obtain ⟨hlen, hall⟩ := ih (k + 1) rest2 h2
        refine ⟨by simp [hlen], ?_⟩
        intro i b hb
        cases i with
        | zero =>
          simp only [List.getElem?_cons_zero, Option.some.injEq] at hb
          subst hb
          exact ⟨a2, by simp, h1⟩
        | succ i =>
          simp only [List.getElem?_cons_succ] at hb
          obtain ⟨b2, hb2, hl⟩ := hall i b hb
          refine ⟨b2, by simpa using hb2, ?_⟩
          rw [← hl]; congr 1; omega

theorem loadColumns_total (E : Env) (block : Block) :
    ∀ (attrs : List attribute_t) (k : Nat),
      (∀ i a, attrs[i]? = some a → ∃ a2, loadRows E (k + i) a block = .ok a2) →
      ∃ attrs2, loadColumns E block k attrs = .ok attrs2 := by
  intro attrs
  induction attrs with
  | nil => intro k _; exact ⟨[], rfl⟩
  | cons a rest ih =>
    intro k h
    obtain ⟨a2, ha2⟩ := h 0 a (by simp)
    obtain ⟨rest2, hr⟩ := ih (k + 1) (fun i b hb => by
      obtain ⟨b2, hb2⟩ := h (i + 1) b (by simpa using hb)
      exact ⟨b2, by rw [← hb2]; congr 1; omega⟩)
    simp only [Nat.add_zero] at ha2
    exact ⟨a2 :: rest2, by simp [loadColumns, bind, Except.bind, pure, Except.pure, ha2, hr]⟩

theorem loadColumns_out_of_bound (E : Env) (block : Block) (a : attribute_t)
    (rest : List attribute_t) (k : Nat) (hwf : a.WF)
    (hbad : ∃ row ∈ block, max_array_size ≤ row.id) :
    loadColumns E block k (a :: rest) = .error .ARGUMENT_OUT_OF_BOUND := by
  simp [loadColumns, bind, Except.bind, loadRows_out_of_bound E k block a hwf hbad]

theorem loadStream_ok (E : Env) (stream : List Block) :
    ∀ (attrs attrs2 : List attribute_t), loadStream E attrs stream = .ok attrs2 →
      attrs2.length = attrs.length ∧
      ∀ i a, attrs[i]? = some a →
        ∃ a2, attrs2[i]? = some a2 ∧ loadRows E i a (rowsOf stream) = .ok a2 := by
  induction stream with
  | nil =>
    intro attrs attrs2 h
    simp only [loadStream, Except.ok.injEq] at h
    subst h
    exact ⟨rfl, fun i a ha => ⟨a, ha, rfl⟩⟩
  | cons block rest ih =>
    intro attrs attrs2 h
    simp only [loadStream, bind, Except.bind] at h
    cases h1 : loadColumns E block 0 attrs with
    | error e => simp [h1] at h
    | ok attrs1 =>
      simp only [h1] at h
      obtain ⟨hlen1, hall1⟩ := loadColumns_ok E block attrs 0 attrs1 h1
      obtain ⟨hlen2, hall2⟩ := ih attrs1 attrs2 h
      refine ⟨hlen2.trans hlen1, ?_⟩
      intro i a ha
      obtain ⟨a1, ha1, hl1⟩ := hall1 i a ha
      obtain ⟨a2, ha2, hl2⟩ := hall2 i a1 ha1
      refine ⟨a2, ha2, ?_⟩
      simp only [Nat.zero_add] at hl1
      simp only [rowsOf, List.flatten_cons] at hl2 ⊢
      rw [loadRows_append, hl1]
      exact hl2

theorem loadColumns_wf (E : Env) (block : Block) (attrs : List attribute_t) (k : Nat)
    (hwf : ∀ a ∈ attrs, a.WF) (hids : ∀ row ∈ block, row.id < max_array_size) :
    ∃ attrs1, loadColumns E block k attrs = .ok attrs1 ∧ attrs1.length = attrs.length ∧
      ∀ a ∈ attrs1, a.WF := by
  obtain ⟨attrs1, h1⟩ := loadColumns_total E block attrs k (fun i a ha => by
    obtain ⟨a2, h, -⟩ := loadRows_spec E (k + i) block a (hwf a (List.getElem?_mem ha)) hids
    exact ⟨a2, h⟩)
  obtain ⟨hlen1, hall1⟩ := loadColumns_ok E block attrs k attrs1 h1
  refine ⟨attrs1, h1, hlen1, ?_⟩
  intro a1 ha1
  obtain ⟨i, hi⟩ := List.getElem?_of_mem ha1
  have hi0 : i < attrs.length := by
    have := (List.getElem?_eq_some.mp hi).1
    omega
  obtain ⟨a2, ha2, hl⟩ := hall1 i attrs[i] (List.getElem?_eq_getElem hi0)
  rw [hi] at ha2
  obtain ⟨a3, h3, hwf3, -⟩ := loadRows_spec E (k + i) block attrs[i]
    (hwf _ (List.getElem_mem _)) hids
  rw [hl] at h3
  cases h3
  cases ha2
  exact hwf3

theorem loadStream_total (E : Env) (stream : List Block) :
    ∀ (attrs : List attribute_t), (∀ a ∈ attrs, a.WF) →
      (∀ row ∈ rowsOf stream, row.id < max_array_size) →
      ∃ attrs2, loadStream E attrs stream = .ok attrs2 := by
  induction stream with
  | nil => intro attrs _ _; exact ⟨attrs, rfl⟩
  | cons block rest ih =>
    intro attrs hwf hids
    have hids1 : ∀ row ∈ block, row.id < max_array_size := fun r hr =>
      hids r (by simp only [rowsOf, List.flatten_cons, List.mem_append]; exact Or.inl hr)
    have hids2 : ∀ row ∈ rowsOf rest, row.id < max_array_size := fun r hr =>
      hids r (by simp only [rowsOf, List.flatten_cons, List.mem_append]; exact Or.inr hr)
    obtain ⟨attrs1, h1, -, hwf1⟩ := loadColumns_wf E block attrs 0 hwf hids1
    obtain ⟨attrs2, h2⟩ := ih attrs1 hwf1 hids2
    exact ⟨attrs2, by simp [loadStream, bind, Except.bind, h1, h2]⟩

theorem loadStream_out_of_bound (E : Env) (stream : List Block) :
    ∀ (attrs : List attribute_t), (∀ a ∈ attrs, a.WF) → attrs ≠ [] →
      (∃ row ∈ rowsOf stream, max_array_size ≤ row.id) →
      loadStream E attrs stream = .error .ARGUMENT_OUT_OF_BOUND := by
  induction stream with
  | nil => intro attrs _ _ h; simp [rowsOf] at h
  | cons block rest ih =>
    intro attrs hwf hne hbad
    by_cases hb : ∃ row ∈ block, max_array_size ≤ row.id
    · cases attrs with
      | nil => exact absurd rfl hne
      | cons a tl =>
        simp [loadStream, bind, Except.bind,
          loadColumns_out_of_bound E block a tl 0 (hwf a (List.mem_cons_self _ _)) hb]
    · have hids1 : ∀ row ∈ block, row.id < max_array_size := by
        intro r hr
        by_contra hge
        exact hb ⟨r, hr, by omega⟩
      have hbad2 : ∃ row ∈ rowsOf rest, max_array_size ≤ row.id := by
        obtain ⟨r, hr, hrid⟩ := hbad
        simp only [rowsOf, List.flatten_cons, List.mem_append] at hr
        rcases hr with h | h
        · exact absurd (hids1 r h) (by omega)
        · exact ⟨r, h, hrid⟩
      obtain ⟨attrs1, h1, hlen1, hwf1⟩ := loadColumns_wf E block attrs 0 hwf hids1
      have hne1 : attrs1 ≠ [] := by
        intro h
        rw [h] at hlen1
        exact hne (List.length_eq_zero.mp hlen1.symm)
      simp only [loadStream, bind, Except.bind, h1]
      exact ih attrs1 hwf1 hne1 hbad2

theorem create_facts (E : Env) (ty : attribute_type) (s : String) (attr : attribute_t)
    (h : createAttributeWithType E ty s = .ok attr) :
    attr.type = ty ∧ (∀ j, j < attr.len → attr.slot j = .ok attr.null_value) ∧
      attr.len = (if ty = .string then initial_array_size else max_array_size) ∧
      (ty = .string → attr.string_arena ≠ none) := by
  cases ty <;>
    simp only [createAttributeWithType, bind, Except.bind, pure, Except.pure] at h <;>
    first
    | (split at h
       · exact absurd h (by simp)
       · simp only [Except.ok.injEq] at h
         subst h
         refine ⟨rfl, ?_, ?_, by simp⟩
         · intro j hj
           simp only [attribute_t.len, filled, lengthOf, Vec.fill] at hj
           simp [attribute_t.slot, attribute_t.null_value, filled,
             Vec.fill, readAt_eq, Functor.map, Except.map, hj]
         · simp [attribute_t.len, filled, lengthOf, Vec.fill])
    | (simp only [Except.ok.injEq] at h
       subst h
       refine ⟨rfl, ?_, ?_, by simp⟩
       · intro j hj
         simp only [attribute_t.len, Vec.resize] at hj
         simp [attribute_t.slot, attribute_t.null_value, attribute_t.string_refs, Vec.resize,
           readAt_eq, Functor.map, Except.map, bind, Except.bind, hj, attribute_t.deref, null_ref]
       · simp [attribute_t.len, Vec.resize])

theorem create_spec (E : Env) (ty : attribute_type) (s : String) (attr : attribute_t)
    (h : createAttributeWithType E ty s = .ok attr) :
    attr.WF ∧ attr.type = ty ∧ (∀ j, j < attr.len → attr.slot j = .ok attr.null_value) ∧
      attr.len = (if ty = .string then initial_array_size else max_array_size) := by
  obtain ⟨hty, hslot, hlen, harena⟩ := create_facts E ty s attr h
  refine ⟨⟨?_, ?_, fun j hj => Or.inl ⟨_, hslot j hj⟩⟩, hty, hslot, hlen⟩
  · intro hne
    rw [hlen, if_neg (hty ▸ hne)]
  · intro he
    have hs : ty = .string := hty ▸ he
    rw [hlen, if_pos hs]
    exact ⟨harena hs, le_refl _, by simp [initial_array_size, max_array_size]⟩

theorem moved_len (attr : attribute_t) : attr.moved.len = attr.len := by
  cases hty : attr.type <;> simp [attribute_t.len, attribute_t.moved, hty]

theorem moved_null_value (attr : attribute_t) : attr.moved.null_value = attr.null_value := by
  cases hty : attr.type <;> simp [attribute_t.null_value, attribute_t.moved, hty]

theorem moved_deref (attr : attribute_t) (ref : StringRef) :
    attr.moved.deref ref = attr.deref ref := rfl

theorem moved_slot (attr : attribute_t) (hty : attr.type ≠ .string) (j : Nat) :
    attr.moved.slot j = attr.slot j := by
  cases h : attr.type <;> first
    | exact absurd h hty
    | simp [attribute_t.slot, attribute_t.moved, h]

theorem moved_slot_string (attr : attribute_t) (hty : attr.type = .string) (j : Nat) :
    attr.moved.slot j =
      if j < attr.string_array.size then
        Datum.string <$> attr.deref (attr.string_array.cell j).relocated
      else .error .UNDEFINED := by
  rw [slot_string attr.moved hty]
  simp only [attribute_t.moved, moved_deref]
  split_ifs with h
  · rfl
  · rfl

/-- A move keeps a column in the state columns are in from their creation on. -/
theorem moved_wf (attr : attribute_t) (hwf : attr.WF) : attr.moved.WF := by
  obtain ⟨hnum, hstr, hslot⟩ := hwf
  refine ⟨fun h => (moved_len attr).trans (hnum h), fun h => ?_, ?_⟩
  · obtain ⟨ha, hlo, hhi⟩ := hstr h
    exact ⟨ha, by rw [moved_len]; exact hlo, by rw [moved_len]; exact hhi⟩
  · intro j hj
    rw [moved_len] at hj
    by_cases hty : attr.type = .string
    · have hjs : j < attr.string_array.size := by
        simpa only [attribute_t.len, hty] using hj
      have hcell : attr.moved.string_array.cell j = (attr.string_array.cell j).relocated := rfl
      cases hd : (attr.string_array.cell j).data with
      | null_value_data =>
        exact Or.inr ⟨hty, by rw [hcell]; simp only [StringRef.relocated, hd]⟩
      | moved_from =>
        exact Or.inr ⟨hty, by rw [hcell]; simp only [StringRef.relocated, hd]⟩
      | arena chunk =>
        have hrel : (attr.string_array.cell j).relocated = attr.string_array.cell j := by
          simp only [StringRef.relocated, hd]
        rcases hslot j hj with ⟨v, hv⟩ | hm
        · refine Or.inl ⟨v, ?_⟩
          rw [moved_slot_string attr hty, if_pos hjs, hrel]
          rw [slot_string attr hty, if_pos hjs] at hv
          exact hv
        · rw [hd] at hm
          cases hm.2
    · rcases hslot j hj with hv | hm
      · exact Or.inl (by rw [moved_slot attr hty]; exact hv)
      · exact absurd hm.1 hty

/-- What a created column reads after the move into the vector: a numeric
column its null value, a string column references into the object it was
moved from. -/
theorem created_moved_slot (E : Env) (ty : attribute_type) (s : String) (attr : attribute_t)
    (h : createAttributeWithType E ty s = .ok attr) (j : Nat) (hj : j < attr.len) :
    attr.moved.slot j =
      if ty = .string then .error .UNDEFINED else .ok attr.null_value := by
  obtain ⟨hty, hslot, -, -⟩ := create_facts E ty s attr h
  by_cases hs : ty = .string
  · rw [if_pos hs]
    subst hs
    simp only [createAttributeWithType, pure, Except.pure, Except.ok.injEq] at h
    subst h
    simp only [attribute_t.len, Vec.resize] at hj
    rw [moved_slot_string _ rfl]
    simp only [Vec.resize, hj, if_true]
    simp [StringRef.relocated, null_ref, attribute_t.deref, Functor.map, Except.map]
  · rw [if_neg hs, moved_slot attr (hty ▸ hs)]
    exact hslot j hj

theorem createAttributes_snoc (E : Env) (l : DictionaryStructure) (a : DictionaryAttribute) :
    createAttributes E (l ++ [a]) = (createAttributes E l).bind (fun d => addAttribute E d a) := by
  simp only [createAttributes, List.foldlM_append, List.foldlM_cons, List.foldlM_nil]
  cases List.foldlM (addAttribute E) ⟨[], [], none⟩ l with
  | error e => rfl
  | ok d =>
    simp only [bind, Except.bind]
    cases addAttribute E d a <;> rfl

theorem addAttribute_ok (E : Env) (d d2 : FlatDictionary) (a : DictionaryAttribute)
    (h : addAttribute E d a = .ok d2) :
    ∃ attr, createAttributeWithType E a.type a.null_value = .ok attr ∧
      d2.attributes = d.attributes ++ [attr.moved] ∧
      d2.attribute_index_by_name = emplace d.attribute_index_by_name a.name d.attributes.length ∧
      d2.hierarchical_attribute =
        if a.hierarchical then some d.attributes.length else d.hierarchical_attribute := by
  simp only [addAttribute, bind, Except.bind, pure, Except.pure] at h
  cases hc : createAttributeWithType E a.type a.null_value with
  | error e => simp [hc] at h
  | ok attr =>
    simp only [hc, Except.ok.injEq] at h
    subst h
    exact ⟨attr, rfl, rfl, rfl, by simp⟩

theorem lookup_emplace (m : IndexByName) (key name : String) (index : Nat) :
    (emplace m key index).lookup name =
      match m.lookup name with
      | some i => some i
      | none => if name = key then some index else none := by
  unfold emplace
  cases hk : m.lookup key with
  | some i =>
    simp only
    cases hn : m.lookup name with
    | some j => rfl
    | none =>
      have : name ≠ key := by
        intro he
        rw [he, hk] at hn
        cases hn
      simp [this]
  | none =>
    simp only [List.lookup_append]
    cases hn : m.lookup name with
    | some j => rfl
    | none =>
      by_cases he : name = key
      · simp [he, List.lookup]
      · have : (name == key) = false := by simpa using he
        simp [he, List.lookup, this]

theorem createAttributes_spec (E : Env) (l : DictionaryStructure) :
    ∀ d, createAttributes E l = .ok d →
    d.attributes.length = l.length ∧
    (∀ (i : Nat) (a : DictionaryAttribute), l[i]? = some a →
      ∃ attr, d.attributes[i]? = some attr.moved ∧
        createAttributeWithType E a.type a.null_value = .ok attr) ∧
    (∀ name, d.attribute_index_by_name.lookup name =
      if name ∈ l.map (·.name) then some ((l.map (·.name)).indexOf name) else none) ∧
    (∀ h : Nat, d.hierarchical_attribute = some h ↔
      ((∃ a : DictionaryAttribute, l[h]? = some a ∧ a.hierarchical = true) ∧
        ∀ (j : Nat) (b : DictionaryAttribute), h < j → l[j]? = some b → b.hierarchical = false)) := by
  induction l using List.reverseRecOn with
  | nil =>
    intro d h
    simp only [createAttributes, List.foldlM_nil, pure, Except.pure, Except.ok.injEq] at h
    subst h
    simp
  | append_singleton l a ih =>
    intro d2 h
    rw [createAttributes_snoc] at h
    cases hd : createAttributes E l with
    | error e => simp [hd, Except.bind] at h
    | ok d =>
      simp only [hd, Except.bind] at h
      obtain ⟨hlen, hattr, hmap, hhier⟩ := ih d hd
      obtain ⟨attr, hc, ha2, hm2, hh2⟩ := addAttribute_ok E d d2 a h
      refine ⟨by simp [ha2, hlen], ?_, ?_, ?_⟩
      · intro i b hb
        by_cases hi : i < l.length
        · rw [List.getElem?_append_left hi] at hb
          obtain ⟨attr1, h1, h2⟩ := hattr i b hb
          refine ⟨attr1, ?_, h2⟩
          rw [ha2, List.getElem?_append_left (by omega)]
          exact h1
        · have hil : i = l.length := by
            have := (List.getElem?_eq_some.mp hb).1
            simp at this
            omega
          subst hil
          simp only [List.getElem?_concat_length, Option.some.injEq] at hb
          subst hb
          exact ⟨attr, by rw [ha2, ← hlen]; simp, hc⟩
      · intro name
        rw [hm2, lookup_emplace, hmap name, hlen]
        simp only [List.map_append, List.map_cons, List.map_nil, List.mem_append,
          List.mem_singleton]
        by_cases hmem : name ∈ l.map (·.name)
        · simp only [hmem, if_true, true_or]
          rw [List.indexOf_append_of_mem hmem]
        · simp only [hmem, if_false, false_or]
          by_cases he : name = a.name
          · simp only [he, if_true]
            rw [List.indexOf_append_of_not_mem (he ▸ hmem)]
            simp
          · simp [he]
      · intro k
        rw [hh2, hlen]
        by_cases hah : a.hierarchical = true
        · simp only [hah, if_true, Option.some.injEq]
          constructor
          · intro hk
            subst hk
            refine ⟨⟨a, by simp, hah⟩, ?_⟩
            intro j b hj hb
            have := (List.getElem?_eq_some.mp hb).1
            simp at this
            omega
          · rintro ⟨⟨b, hb, -⟩, hall⟩
            have hkl := (List.getElem?_eq_some.mp hb).1
            simp only [List.length_append, List.length_singleton] at hkl
            by_contra hne
            have := hall l.length a (by omega) (by simp)
            rw [hah] at this
            cases this
        · have haf : a.hierarchical = false := by simpa using hah
          simp only [haf, Bool.false_eq_true, if_false]
          rw [hhier k]
          constructor
          · rintro ⟨⟨b, hb, hbh⟩, hall⟩
            have hkl := (List.getElem?_eq_some.mp hb).1
            refine ⟨⟨b, by rw [List.getElem?_append_left hkl]; exact hb, hbh⟩, ?_⟩
            intro j c hj hc
            by_cases hjl : j < l.length
            · rw [List.getElem?_append_left hjl] at hc
              exact hall j c hj hc
            · have hjl2 : j = l.length := by
                have := (List.getElem?_eq_some.mp hc).1
                simp at this
                omega
              subst hjl2
              simp only [List.getElem?_concat_length, Option.some.injEq] at hc
              subst hc
              exact haf
          · rintro ⟨⟨b, hb, hbh⟩, hall⟩
            have hkl : k < l.length := by
              by_contra hge
              have hk2 : k = l.length := by
                have := (List.getElem?_eq_some.mp hb).1
                simp at this
                omega
              subst hk2
              simp only [List.getElem?_concat_length, Option.some.injEq] at hb
              subst hb
              rw [haf] at hbh
              cases hbh
            rw [List.getElem?_append_left hkl] at hb
            refine ⟨⟨b, hb, hbh⟩, ?_⟩
            intro j c hj hc
            exact hall j c hj (by
              rw [List.getElem?_append_left (List.getElem?_eq_some.mp hc).1]; exact hc)

theorem attributeAt_eq (d : FlatDictionary) (i : Nat) (attr : attribute_t) :
    d.attributeAt i = .ok attr ↔ d.attributes[i]? = some attr := by
  unfold FlatDictionary.attributeAt
  cases d.attributes[i]? with
  | none => simp
  | some b => simp

theorem construct_ok (E : Env) (l : DictionaryStructure) (stream : List Block)
    (d : FlatDictionary) (h : FlatDictionary.construct E l stream = .ok d) :
    ∃ d0, createAttributes E l = .ok d0 ∧
      d.attribute_index_by_name = d0.attribute_index_by_name ∧
      d.hierarchical_attribute = d0.hierarchical_attribute ∧
      loadStream E d0.attributes stream = .ok d.attributes := by
  simp only [FlatDictionary.construct, bind, Except.bind, pure, Except.pure] at h
  cases h0 : createAttributes E l with
  | error e => simp [h0] at h
  | ok d0 =>
    simp only [h0] at h
    cases h1 : loadStream E d0.attributes stream with
    | error e => simp [h1] at h
    | ok attrs =>
      simp only [h1, Except.ok.injEq] at h
      subst h
      exact ⟨d0, rfl, rfl, rfl, h1⟩

theorem loadRows_ids (E : Env) (idx : Nat) (rows : List Row) (attr attr2 : attribute_t)
    (hwf : attr.WF) (h : loadRows E idx attr rows = .ok attr2) :
    ∀ row ∈ rows, row.id < max_array_size := by
  intro row hrow
  by_contra hge
  rw [loadRows_out_of_bound E idx rows attr hwf ⟨row, hrow, by omega⟩] at h
  cases h

theorem find_last_mem (rows : List Row) (id : Nat) (row : Row)
    (h : rows.reverse.find? (fun r => decide (r.id = id)) = some row) :
    row ∈ rows ∧ row.id = id := by
  have h1 := List.mem_of_find?_eq_some h
  have h2 := List.find?_some h
  exact ⟨List.mem_reverse.mp h1, by simpa using h2⟩

/-- What construction leaves in the column of the attribute at index `i`. -/
theorem column_spec (E : Env) (l : DictionaryStructure) (stream : List Block)
    (d : FlatDictionary) (h : FlatDictionary.construct E l stream = .ok d)
    (i : Nat) (a : DictionaryAttribute) (ha : l[i]? = some a) :
    ∃ attr0 attr, createAttributeWithType E a.type a.null_value = .ok attr0 ∧
      d.attributeAt i = .ok attr ∧ attr.WF ∧ attr.type = a.type ∧
      attr.null_value = attr0.null_value ∧ attr0.len ≤ attr.len ∧
      attr.len ≤ max_array_size ∧
      loadRows E i attr0.moved (rowsOf stream) = .ok attr ∧
      (∀ row ∈ rowsOf stream, row.id < attr.len) ∧
      ∀ j, j < attr.len → attr.slot j =
        match lastRow stream j with
        | some row => .ok (converted E a.type (row.value i))
        | none =>
          if a.type = .string ∧ j < initial_array_size then .error .UNDEFINED
          else .ok attr0.null_value := by
  obtain ⟨d0, h0, -, -, hload⟩ := construct_ok E l stream d h
  obtain ⟨-, hattr, -, -⟩ := createAttributes_spec E l d0 h0
  obtain ⟨attr0, hat0, hc⟩ := hattr i a ha
  obtain ⟨hwf00, hty0, hslot0, hlen0⟩ := create_spec E a.type a.null_value attr0 hc
  have hwf0 := moved_wf attr0 hwf00
  obtain ⟨-, hall⟩ := loadStream_ok E stream d0.attributes d.attributes hload
  obtain ⟨attr, hat, hrows⟩ := hall i attr0.moved hat0
  have hids := loadRows_ids E i (rowsOf stream) attr0.moved attr hwf0 hrows
  obtain ⟨attr2, h2, hwf2, hty2, hn2, hl2, hi2, hs2⟩ :=
    loadRows_spec E i (rowsOf stream) attr0.moved hwf0 hids
  rw [hrows] at h2
  cases h2
  rw [moved_len] at hl2
  rw [moved_null_value] at hn2
  have hty1 : attr0.moved.type = a.type := hty0
  refine ⟨attr0, attr, hc, (attributeAt_eq d i attr).mpr hat, hwf2, hty2.trans hty1, hn2, hl2,
    ?_, hrows, hi2, ?_⟩
  · by_cases hs : attr.type = .string
    · exact (hwf2.2.1 hs).2.2
    · exact le_of_eq (hwf2.1 hs)
  · intro j hj
    rw [hs2 j hj, hty1, moved_len, moved_null_value]
    unfold lastRow
    cases (rowsOf stream).reverse.find? (fun r => decide (r.id = j)) with
    | some row => rfl
    | none =>
      simp only
      by_cases hj0 : j < attr0.len
      · rw [if_pos hj0, created_moved_slot E a.type a.null_value attr0 hc j hj0]
        by_cases hs : a.type = .string
        · rw [hlen0, if_pos hs] at hj0
          rw [if_pos hs, if_pos ⟨hs, hj0⟩]
        · rw [if_neg hs, if_neg (fun h => hs h.1)]
      · rw [if_neg hj0, if_neg]
        rintro ⟨hs, hlt⟩
        rw [hlen0, if_pos hs] at hj0
        exact hj0 hlt

/-- The index a name resolves to is the position of the first attribute that
bears the name. -/
theorem index_spec (E : Env) (l : DictionaryStructure) (stream : List Block)
    (d : FlatDictionary) (h : FlatDictionary.construct E l stream = .ok d) (name : String) :
    d.getAttributeIndex name =
      if name ∈ l.map (·.name) then .ok ((l.map (·.name)).indexOf name)
      else .error .BAD_ARGUMENTS := by
  obtain ⟨d0, h0, hm, -, -⟩ := construct_ok E l stream d h
  obtain ⟨-, -, hmap, -⟩ := createAttributes_spec E l d0 h0
  unfold FlatDictionary.getAttributeIndex
  rw [hm, hmap name]
  split_ifs <;> rfl

theorem index_attr (E : Env) (l : DictionaryStructure) (stream : List Block)
    (d : FlatDictionary) (h : FlatDictionary.construct E l stream = .ok d) (name : String)
    (i : Nat) (hi : d.getAttributeIndex name = .ok i) :
    ∃ a, l[i]? = some a ∧ a.name = name := by
  rw [index_spec E l stream d h name] at hi
  split_ifs at hi with hmem
  simp only [Except.ok.injEq] at hi
  have hlt : (l.map (·.name)).indexOf name < (l.map (·.name)).length :=
    List.indexOf_lt_length.mpr hmem
  have hget := List.getElem_indexOf hlt
  rw [hi] at hlt
  simp only [List.length_map] at hlt
  refine ⟨l[i], List.getElem?_eq_getElem hlt, ?_⟩
  simp only [hi, List.getElem_map] at hget
  exact hget

theorem construct_total (E : Env) (l : DictionaryStructure) (stream : List Block)
    (d0 : FlatDictionary) (h0 : createAttributes E l = .ok d0)
    (hids : ∀ row ∈ rowsOf stream, row.id < max_array_size) :
    ∃ d, FlatDictionary.construct E l stream = .ok d := by
  obtain ⟨hlen, hattr, -, -⟩ := createAttributes_spec E l d0 h0
  have hwf : ∀ a ∈ d0.attributes, a.WF := by
    intro attr hmem
    obtain ⟨i, hi⟩ := List.getElem?_of_mem hmem
    have hil : i < l.length := by
      have := (List.getElem?_eq_some.mp hi).1
      omega
    obtain ⟨attr1, h1, hc⟩ := hattr i l[i] (List.getElem?_eq_getElem hil)
    rw [hi] at h1
    cases h1
    exact moved_wf _ (create_spec E _ _ _ hc).1
  obtain ⟨attrs, hl⟩ := loadStream_total E stream d0.attributes hwf hids
  exact ⟨{ d0 with attributes := attrs }, by
    simp [FlatDictionary.construct, bind, Except.bind, pure, Except.pure, h0, hl]⟩

theorem parsed_none {α : Type} (r : Option α) (h : r.isSome = false) :
    parsed r = .error .CANNOT_PARSE := by
  cases r with
  | none => rfl
  | some v => cases h

/-- A text that `DB::parse` accepts makes a column. -/
theorem create_of_accepts (E : Env) (T : attribute_type) (text : String)
    (h : accepts E T text = true) : ∃ attr, createAttributeWithType E T text = .ok attr := by
  cases T <;> simp only [accepts] at h <;>
    simp only [createAttributeWithType, bind, Except.bind, pure, Except.pure] <;>
    first
    | exact ⟨_, rfl⟩
    | (obtain ⟨v, hv⟩ := Option.isSome_iff_exists.mp h
       rw [hv]
       exact ⟨_, rfl⟩)

/-- A text that `DB::parse` refuses makes the creation fail with its error. -/
theorem create_of_not_accepts (E : Env) (T : attribute_type) (text : String)
    (h : accepts E T text = false) : createAttributeWithType E T text = .error .CANNOT_PARSE := by
  cases T <;> simp only [accepts] at h <;>
    simp only [createAttributeWithType, bind, Except.bind, pure, Except.pure] <;>
    first
    | cases h
    | rw [parsed_none _ h]

theorem createAttributes_total (E : Env) (l : DictionaryStructure) (h : parses E l) :
    ∃ d0, createAttributes E l = .ok d0 := by
  induction l using List.reverseRecOn with
  | nil => exact ⟨_, rfl⟩
  | append_singleton l a ih =>
    obtain ⟨d0, h0⟩ := ih (fun b hb => h b (List.mem_append_left _ hb))
    obtain ⟨attr, hc⟩ := create_of_accepts E a.type a.null_value (h a (by simp))
    rw [createAttributes_snoc, h0]
    simp only [Except.bind, addAttribute, bind, pure, Except.pure, hc]
    exact ⟨_, rfl⟩

/-- The column the hierarchical reference designates. -/
theorem hierarchical_spec (E : Env) (l : DictionaryStructure) (stream : List Block)
    (d : FlatDictionary) (h : FlatDictionary.construct E l stream = .ok d) (k : Nat) :
    d.hierarchical_attribute = some k ↔ ∃ a, marks_hierarchical l k a := by
  obtain ⟨d0, h0, -, hh, -⟩ := construct_ok E l stream d h
  obtain ⟨-, -, -, hhier⟩ := createAttributes_spec E l d0 h0
  rw [hh, hhier k]
  unfold marks_hierarchical
  constructor
  · rintro ⟨⟨a, ha, hm⟩, hall⟩
    exact ⟨a, ha, hm, hall⟩
  · rintro ⟨a, ha, hm, hall⟩
    exact ⟨⟨a, ha, hm⟩, hall⟩

theorem readAt_error {α : Type} (array : Option (Vec α)) (i : Nat) (e : Fault)
    (h : readAt array i = .error e) : e = .UNDEFINED := by
  rw [readAt_eq] at h
  cases array with
  | none => cases h; rfl
  | some a =>
    simp only at h
    split_ifs at h
    cases h; rfl

theorem deref_error (attr : attribute_t) (ref : StringRef) (e : Fault)
    (h : attr.deref ref = .error e) : e = .UNDEFINED := by
  unfold attribute_t.deref at h
  cases hd : ref.data with
  | null_value_data =>
    simp only [hd] at h
    split_ifs at h
    cases h; rfl
  | moved_from =>
    simp only [hd] at h
    cases h; rfl
  | arena chunk =>
    simp only [hd] at h
    cases ha : attr.string_arena with
    | none => simp only [ha] at h; cases h; rfl
    | some arena =>
      simp only [ha] at h
      cases hc : arena[chunk]? with
      | none => simp only [hc] at h; cases h; rfl
      | some s =>
        simp only [hc] at h
        split_ifs at h
        cases h; rfl

theorem map_error {α β : Type} (f : α → β) (x : Except Fault α) (e : Fault)
    (h : f <$> x = .error e) : x = .error e := by
  cases x with
  | error e2 => simpa [Functor.map, Except.map] using h
  | ok v => simp [Functor.map, Except.map] at h

theorem slot_error (attr : attribute_t) (id : Nat) (e : Fault) (h : attr.slot id = .error e) :
    e = .UNDEFINED := by
  unfold attribute_t.slot at h
  cases hty : attr.type <;> simp only [hty] at h <;>
    first
    | exact readAt_error _ _ _ (map_error _ _ _ h)
    | (simp only [bind, Except.bind] at h
       cases hr : readAt attr.string_refs id with
       | error e2 =>
         simp only [hr] at h
         cases h
         exact readAt_error _ _ _ hr
       | ok ref =>
         simp only [hr] at h
         exact deref_error _ _ _ (map_error _ _ _ h))

theorem get_unknown (d : FlatDictionary) (T : attribute_type) (name : String) (id : Nat)
    (e : Fault) (h : d.getAttributeIndex name = .error e) : d.get T name id = .error e := by
  cases T <;>
    simp [FlatDictionary.get, FlatDictionary.getUInt8, FlatDictionary.getUInt16,
      FlatDictionary.getUInt32, FlatDictionary.getUInt64, FlatDictionary.getInt8,
      FlatDictionary.getInt16, FlatDictionary.getInt32, FlatDictionary.getInt64,
      FlatDictionary.getFloat32, FlatDictionary.getFloat64, FlatDictionary.getString,
      DECLARE_SAFE_GETTER, h, bind, Except.bind, Functor.map, Except.map]

theorem is_eq (d : FlatDictionary) (T : attribute_type) (i : Nat) (attr : attribute_t)
    (hattr : d.attributeAt i = .ok attr) : d.is T i = .ok (decide (attr.type = T)) := by
  cases T <;>
    simp [FlatDictionary.is, FlatDictionary.isUInt8, FlatDictionary.isUInt16,
      FlatDictionary.isUInt32, FlatDictionary.isUInt64, FlatDictionary.isInt8,
      FlatDictionary.isInt16, FlatDictionary.isInt32, FlatDictionary.isInt64,
      FlatDictionary.isFloat32, FlatDictionary.isFloat64, FlatDictionary.isString,
      DECLARE_TYPE_CHECKER, hattr, bind, Except.bind, pure, Except.pure]

theorem unsafe_getter_eq {α : Type} (array : attribute_t → Option (Vec α))
    (null_value : attribute_t → α) (d : FlatDictionary) (i id : Nat) (attr : attribute_t)
    (hattr : d.attributeAt i = .ok attr) :
    DECLARE_UNSAFE_GETTER array null_value d i id =
      if id < max_array_size then readAt (array attr) id else .ok (null_value attr) := by
  simp [DECLARE_UNSAFE_GETTER, hattr, bind, Except.bind, pure, Except.pure]

theorem getUnsafe_eq (d : FlatDictionary) (T : attribute_type) (i id : Nat) (attr : attribute_t)
    (hattr : d.attributeAt i = .ok attr) (hty : attr.type = T) :
    d.getUnsafe T i id = if id < max_array_size then attr.slot id else .ok attr.null_value := by
  by_cases hid : id < max_array_size <;> cases T <;>
    simp [FlatDictionary.getUnsafe, FlatDictionary.getUInt8Unsafe,
      FlatDictionary.getUInt16Unsafe, FlatDictionary.getUInt32Unsafe,
      FlatDictionary.getUInt64Unsafe, FlatDictionary.getInt8Unsafe,
      FlatDictionary.getInt16Unsafe, FlatDictionary.getInt32Unsafe,
      FlatDictionary.getInt64Unsafe, FlatDictionary.getFloat32Unsafe,
      FlatDictionary.getFloat64Unsafe, FlatDictionary.getStringUnsafe,
      unsafe_getter_eq _ _ d i id attr hattr,
      hty, hid, attribute_t.slot, attribute_t.null_value, Functor.map, Except.map,
      bind, Except.bind, FlatDictionary.derefAt, hattr, deref_null_ref]

theorem toParent_eq (d : FlatDictionary) (k id : Nat) (attr : attribute_t)
    (hk : d.hierarchical_attribute = some k) (hattr : d.attributeAt k = .ok attr) :
    d.toParent id =
      if attr.type.is_integer then
        Datum.to_id <$> (if id < max_array_size then attr.slot id else .ok attr.null_value)
      else .error .TYPE_MISMATCH := by
  by_cases hid : id < max_array_size <;> cases hty : attr.type <;>
    simp [FlatDictionary.toParent, hk, hattr, hty, hid, attribute_type.is_integer,
      attribute_t.slot, attribute_t.null_value, Functor.map, Except.map, bind, Except.bind,
      pure, Except.pure, Datum.to_id, throw, throwThe, MonadExceptOf.throw] <;>
    cases readAt _ id <;> rfl

theorem stored_outcome {α : Type} (attr : attribute_t) (written : Option (Vec α))
    (put : Vec α → attribute_t) :
    (stored attr written put).2 ≠ .error .ARGUMENT_OUT_OF_BOUND := by
  cases written <;> simp [stored]

theorem get_written (E : Env) (l : DictionaryStructure) (stream : List Block)
    (d : FlatDictionary) (h : FlatDictionary.construct E l stream = .ok d)
    (i : Nat) (a : DictionaryAttribute) (ha : l[i]? = some a)
    (hidx : d.getAttributeIndex a.name = .ok i)
    (id : Nat) (row : Row) (hrow : lastRow stream id = some row) :
    d.get a.type a.name id = .ok (converted E a.type (row.value i)) := by
  obtain ⟨attr0, attr, -, hat, -, hty, -, -, hmax, -, hids, hslot⟩ :=
    column_spec E l stream d h i a ha
  obtain ⟨hmem, hrid⟩ := find_last_mem (rowsOf stream) id row hrow
  have hlt : id < attr.len := hrid ▸ hids row hmem
  rw [get_eq d a.type a.name id i attr hidx hat, hslot id hlt, hrow]
  simp only [hty, ne_eq, not_true_eq_false, if_false]
  rw [if_pos (by omega)]

theorem castUInt_64_get (value : Field) :
    castUInt 64 value.get_UInt64 = value.get_UInt64 := by
  simp only [castUInt, Field.get_UInt64]
  exact Nat.mod_mod _ _

theorem get_UInt64_lt (value : Field) : value.get_UInt64 < 2 ^ 64 := by
  simp only [castUInt, Field.get_UInt64]
  exact Nat.mod_lt _ (by norm_num)

theorem castInt_range (w : Nat) (v : Int) (hw : 1 ≤ w) (hw2 : w ≤ 64) :
    -(2 ^ 63) ≤ castInt w v ∧ castInt w v < 2 ^ 63 := by
  unfold castInt
  have hpos : (0 : Int) < 2 ^ w := by positivity
  have h1 := Int.emod_nonneg (v + 2 ^ (w - 1)) (ne_of_gt hpos)
  have h2 := Int.emod_lt_of_pos (v + 2 ^ (w - 1)) hpos
  have h3 : (2 : Int) ^ w = 2 * 2 ^ (w - 1) := by
    have : w = (w - 1) + 1 := by omega
    conv_lhs => rw [this]
    rw [pow_succ]
    ring
  have h4 : (2 : Int) ^ (w - 1) ≤ 2 ^ 63 :=
    pow_le_pow_right₀ (by norm_num) (by omega)
  have h5 : (0 : Int) < 2 ^ (w - 1) := by positivity
  constructor <;> omega

theorem to_id_t_eq (v : Int) (h1 : -(2 ^ 63) ≤ v) (h2 : v < 2 ^ 63) :
    to_id_t v = if 0 ≤ v then v.toNat else (v + 2 ^ 64).toNat := by
  unfold to_id_t
  split_ifs with h
  · congr 1
    exact Int.emod_eq_of_lt h (by omega)
  · congr 1
    rw [← Int.add_mul_emod_self (a := v) (b := 1) (c := 2 ^ 64)]
    simp only [one_mul]
    exact Int.emod_eq_of_lt (by omega) (by omega)

theorem converted_signed (E : Env) (T : attribute_type) (value : Field)
    (h : T.is_signed = true) :
    ∃ v : Int, converted E T value = .int v ∧ -(2 ^ 63) ≤ v ∧ v < 2 ^ 63 := by
  cases T <;> simp only [attribute_type.is_signed] at h <;> try cases h
  · exact ⟨_, rfl, castInt_range 8 _ (by norm_num) (by norm_num)⟩
  · exact ⟨_, rfl, castInt_range 16 _ (by norm_num) (by norm_num)⟩
  · exact ⟨_, rfl, castInt_range 32 _ (by norm_num) (by norm_num)⟩
  · exact ⟨_, rfl, castInt_range 64 _ (by norm_num) (by norm_num)⟩

theorem created_null_signed (E : Env) (T : attribute_type) (s : String) (attr : attribute_t)
    (hc : createAttributeWithType E T s = .ok attr) (h : T.is_signed = true) :
    ∃ v : Int, attr.null_value = .int v ∧ -(2 ^ 63) ≤ v ∧ v < 2 ^ 63 := by
  cases T <;> simp only [attribute_type.is_signed] at h <;> try cases h
  all_goals
    simp only [createAttributeWithType, bind, Except.bind, pure, Except.pure] at hc
    split at hc
    · exact absurd hc (by simp)
    · simp only [Except.ok.injEq] at hc
      subst hc
      exact ⟨_, rfl, castInt_range _ _ (by norm_num) (by norm_num)⟩

theorem exists_last_marked (l : DictionaryStructure)
    (h : ∃ a ∈ l, a.hierarchical = true) : ∃ k a, marks_hierarchical l k a := by
  induction l using List.reverseRecOn with
  | nil => simp at h
  | append_singleton l b ih =>
    by_cases hb : b.hierarchical = true
    · refine ⟨l.length, b, by simp, hb, ?_⟩
      intro j c hj hc
      have := (List.getElem?_eq_some.mp hc).1
      simp only [List.length_append, List.length_singleton] at this
      omega
    · have hbf : b.hierarchical = false := by simpa using hb
      obtain ⟨a, ha, hah⟩ := h
      have hal : a ∈ l := by
        rcases List.mem_append.mp ha with h1 | h1
        · exact h1
        · rw [List.mem_singleton.mp h1, hbf] at hah
          cases hah
      obtain ⟨k, c, hc, hch, hall⟩ := ih ⟨a, hal, hah⟩
      have hk : k < l.length := (List.getElem?_eq_some.mp hc).1
      refine ⟨k, c, by rw [List.getElem?_append_left hk]; exact hc, hch, ?_⟩
      intro j e hj he
      by_cases hjl : j < l.length
      · rw [List.getElem?_append_left hjl] at he
        exact hall j e hj he
      · have hjl2 : j = l.length := by
          have := (List.getElem?_eq_some.mp he).1
          simp only [List.length_append, List.length_singleton] at this
          omega
        subst hjl2
        simp only [List.getElem?_concat_length, Option.some.injEq] at he
        subst he
        exact hbf

theorem loadStream_nil (E : Env) (stream : List Block) : loadStream E [] stream = .ok [] := by
  induction stream with
  | nil => rfl
  | cons block rest ih => simp [loadStream, loadColumns, bind, Except.bind, ih]

theorem createAttributes_wf (E : Env) (l : DictionaryStructure) (d0 : FlatDictionary)
    (h0 : createAttributes E l = .ok d0) : ∀ a ∈ d0.attributes, a.WF := by
  obtain ⟨hlen, hattr, -, -⟩ := createAttributes_spec E l d0 h0
  intro attr hmem
  obtain ⟨i, hi⟩ := List.getElem?_of_mem hmem
  have hil : i < l.length := by
    have := (List.getElem?_eq_some.mp hi).1
    omega
  obtain ⟨attr1, h1, hc⟩ := hattr i l[i] (List.getElem?_eq_getElem hil)
  rw [hi] at h1
  cases h1
  exact moved_wf _ (create_spec E _ _ _ hc).1

/-- The load of a stream is a function of its rows. -/
theorem loadStream_rows (E : Env) (attrs : List attribute_t) (s1 s2 : List Block)
    (hwf : ∀ a ∈ attrs, a.WF) (hrows : rowsOf s1 = rowsOf s2) :
    loadStream E attrs s1 = loadStream E attrs s2 := by
  by_cases hnil : attrs = []
  · rw [hnil, loadStream_nil, loadStream_nil]
  by_cases hbad : ∃ row ∈ rowsOf s1, max_array_size ≤ row.id
  · rw [loadStream_out_of_bound E s1 attrs hwf hnil hbad,
      loadStream_out_of_bound E s2 attrs hwf hnil (hrows ▸ hbad)]
  · have hids : ∀ row ∈ rowsOf s1, row.id < max_array_size := by
      intro row hrow
      by_contra hge
      exact hbad ⟨row, hrow, by omega⟩
    obtain ⟨r1, h1⟩ := loadStream_total E s1 attrs hwf hids
    obtain ⟨r2, h2⟩ := loadStream_total E s2 attrs hwf (hrows ▸ hids)
    obtain ⟨hl1, ha1⟩ := loadStream_ok E s1 attrs r1 h1
    obtain ⟨hl2, ha2⟩ := loadStream_ok E s2 attrs r2 h2
    rw [h1, h2]
    congr 1
    apply List.ext_getElem? 
    intro i
    by_cases hi : i < attrs.length
    · obtain ⟨b1, hb1, hr1⟩ := ha1 i attrs[i] (List.getElem?_eq_getElem hi)
      obtain ⟨b2, hb2, hr2⟩ := ha2 i attrs[i] (List.getElem?_eq_getElem hi)
      rw [hrows, hr2] at hr1
      cases hr1
      rw [hb1, hb2]
    · rw [List.getElem?_eq_none (by omega), List.getElem?_eq_none (by omega)]



theorem loadStream_outcome (E : Env) (attrs : List attribute_t) (stream : List Block)
    (hwf : ∀ a ∈ attrs, a.WF) :
    loadStream E attrs stream = .error .ARGUMENT_OUT_OF_BOUND ∨
      ∃ r, loadStream E attrs stream = .ok r := by
  by_cases hnil : attrs = []
  · exact Or.inr ⟨[], by rw [hnil, loadStream_nil]⟩
  by_cases hbad : ∃ row ∈ rowsOf stream, max_array_size ≤ row.id
  · exact Or.inl (loadStream_out_of_bound E stream attrs hwf hnil hbad)
  · refine Or.inr (loadStream_total E stream attrs hwf ?_)
    intro row hrow
    by_contra hge
    exact hbad ⟨row, hrow, by omega⟩

theorem construct_eq (E : Env) (l : DictionaryStructure) (stream : List Block) :
    FlatDictionary.construct E l stream =
      match createAttributes E l with
      | .error e => .error e
      | .ok d0 =>
        match loadStream E d0.attributes stream with
        | .error e => .error e
        | .ok attributes => .ok { d0 with attributes := attributes } := by
  simp only [FlatDictionary.construct, bind, Except.bind, pure, Except.pure]
  cases createAttributes E l with
  | error e => rfl
  | ok d0 =>
    simp only
    cases loadStream E d0.attributes stream <;> rfl

/-! ## Properties -/

/-- C1 (last write wins).  After construction, for every attribute `a` of the
schema, at position `i`, that its name resolves to, and every id that occurs in
at least one row, the name-checked getter of the type of `a` returns what the
last row with that id, in stream order across the blocks, carries for the
attribute, as `setAttributeValue` converts it to the column's type.  Of two
rows with one id the second is the one visible. -/
theorem last_write_wins (E : Env) (dict_struct : DictionaryStructure) (stream : List Block)
    (d : FlatDictionary) (h : FlatDictionary.construct E dict_struct stream = .ok d)
    (i : Nat) (a : DictionaryAttribute) (ha : dict_struct[i]? = some a)
    (hidx : d.getAttributeIndex a.name = .ok i)
    (id : Nat) (row : Row) (hrow : lastRow stream id = some row) :
    d.get a.type a.name id = .ok (converted E a.type (row.value i)) := by
  obtain ⟨attr0, attr, -, hat, -, hty, -, -, hmax, -, hids, hslot⟩ :=
    column_spec E dict_struct stream d h i a ha
  obtain ⟨hmem, hrid⟩ := find_last_mem (rowsOf stream) id row hrow
  have hlt : id < attr.len := hrid ▸ hids row hmem
  rw [get_eq d a.type a.name id i attr hidx hat, hslot id hlt, hrow]
  simp only [hty, ne_eq, not_true_eq_false, if_false]
  rw [if_pos (by omega)]

/-- Witness of C1 on `regions`: id 5 is written in both blocks and the value of
the second block is the one read, for the numeric and for the string column. -/
theorem last_write_wins_witness :
    ∃ d, FlatDictionary.construct decimalEnv regions regionBlocks = .ok d ∧
      d.get .uint32 "parent" 5 = .ok (.uint 2) ∧
      d.get .string "title" 5 = .ok (.string "FIVE") :=
  ⟨_, rfl,
    last_write_wins decimalEnv regions regionBlocks _ rfl 0
      ⟨"parent", .uint32, "0", true⟩ rfl rfl 5 (regionRow 5 2 "FIVE") rfl,
    last_write_wins decimalEnv regions regionBlocks _ rfl 1
      ⟨"title", .string, "none", false⟩ rfl rfl 5 (regionRow 5 2 "FIVE") rfl⟩

/-- C2 (null default), at the input where the code departs from it: a string
column with no row loaded has 128 references, and the getter, which compares
`id` with `max_array_size` and not with the length of the vector, indexes the
vector at 128, outside it. -/
theorem string_getter_reads_outside_the_vector :
    (FlatDictionary.construct decimalEnv [⟨"title", .string, "none", false⟩] []).bind
        (fun d => (fun attr => attr.string_array.size) <$> d.attributeAt 0) = .ok 128 ∧
    (FlatDictionary.construct decimalEnv [⟨"title", .string, "none", false⟩] []).bind
        (fun d => d.get .string "title" 128) = .error .UNDEFINED := by
  decide

/-- C3 (out of range).  After construction, whatever rows were loaded, for
every attribute `a` of the schema that its name resolves to, the getter of the
type of `a` answers every id at or above `max_array_size` with the null value
the column was created with, and with no error. -/
theorem out_of_range_is_null (E : Env) (dict_struct : DictionaryStructure) (stream : List Block)
    (d : FlatDictionary) (h : FlatDictionary.construct E dict_struct stream = .ok d)
    (i : Nat) (a : DictionaryAttribute) (ha : dict_struct[i]? = some a)
    (hidx : d.getAttributeIndex a.name = .ok i)
    (id : Nat) (hid : max_array_size ≤ id) :
    ∃ attr0, createAttributeWithType E a.type a.null_value = .ok attr0 ∧
      d.get a.type a.name id = .ok attr0.null_value := by
  obtain ⟨attr0, attr, hc, hat, -, hty, hnull, -⟩ := column_spec E dict_struct stream d h i a ha
  refine ⟨attr0, hc, ?_⟩
  rw [get_eq d a.type a.name id i attr hidx hat]
  simp only [hty, ne_eq, not_true_eq_false, if_false]
  rw [if_neg (by omega), hnull]

/-- Witness of C3 on `regions`: ids 500000 and 999999 read the null values
`0` and `none`. -/
theorem out_of_range_is_null_witness :
    ∃ d, FlatDictionary.construct decimalEnv regions regionBlocks = .ok d ∧
      (∃ attr0, createAttributeWithType decimalEnv .uint32 "0" = .ok attr0 ∧
        d.get .uint32 "parent" 500000 = .ok attr0.null_value) ∧
      d.get .string "title" 999999 = .ok (.string "none") :=
  ⟨_, rfl,
    out_of_range_is_null decimalEnv regions regionBlocks _ rfl 0
      ⟨"parent", .uint32, "0", true⟩ rfl rfl 500000 (by decide),
    by decide⟩

/-- C4 (type check).  After construction, for a name of the schema, every
getter type `T` and every id, `get<T>(name, id)` fails with `TYPE_MISMATCH`
exactly when the type of the column the name resolves to differs from `T`,
which is exactly when `isT(getAttributeIndex(name))` is false.  When the types
agree the getter passes the check and goes on to the read, whose outcome is a
value or, in a string column, an undefined read (past the end of the vector or
through a reference the move of the column left behind); it is never
`TYPE_MISMATCH`. -/
theorem type_mismatch_iff (E : Env) (dict_struct : DictionaryStructure) (stream : List Block)
    (d : FlatDictionary) (h : FlatDictionary.construct E dict_struct stream = .ok d)
    (name : String) (hname : name ∈ dict_struct.map (·.name)) (T : attribute_type) (id : Nat) :
    ∃ i a attr, d.getAttributeIndex name = .ok i ∧ dict_struct[i]? = some a ∧ a.name = name ∧
      d.attributeAt i = .ok attr ∧ attr.type = a.type ∧
      (d.get T name id = .error .TYPE_MISMATCH ↔ attr.type ≠ T) ∧
      (attr.type ≠ T ↔ d.is T i = .ok false) := by
  have hidx := index_spec E dict_struct stream d h name
  rw [if_pos hname] at hidx
  obtain ⟨a, ha, han⟩ := index_attr E dict_struct stream d h name _ hidx
  obtain ⟨attr0, attr, -, hat, -, hty, -⟩ := column_spec E dict_struct stream d h _ a ha
  refine ⟨_, a, attr, hidx, ha, han, hat, hty, ?_, ?_⟩
  · rw [get_eq d T name id _ attr hidx hat]
    constructor
    · intro hg
      by_contra hT
      simp only [ne_eq, hT, not_true_eq_false, not_false_eq_true, if_false] at hg
      split_ifs at hg
      · have := slot_error attr id _ hg
        cases this
    · intro hT
      simp [hT]
  · rw [is_eq d T _ attr hat]
    simp

/-- Witness of C4 on `regions`: `getFloat32` on the column declared `uint32`
fails with `TYPE_MISMATCH`, and `isFloat32` is false at its index. -/
theorem type_mismatch_iff_witness :
    ∃ d, FlatDictionary.construct decimalEnv regions regionBlocks = .ok d ∧
      d.get .float32 "parent" 5 = .error .TYPE_MISMATCH ∧
      ∃ i a attr, d.getAttributeIndex "parent" = .ok i ∧ regions[i]? = some a ∧
        a.name = "parent" ∧ d.attributeAt i = .ok attr ∧ attr.type = a.type ∧
        (d.get .float32 "parent" 5 = .error .TYPE_MISMATCH ↔ attr.type ≠ .float32) ∧
        (attr.type ≠ .float32 ↔ d.is .float32 i = .ok false) :=
  ⟨_, rfl, by decide,
    type_mismatch_iff decimalEnv regions regionBlocks _ rfl "parent" (by decide) .float32 5⟩

/-- C5 (name resolution).  After construction from a schema with unique
attribute names, `getAttributeIndex` returns for the name of each attribute its
position in the schema, fails with `BAD_ARGUMENTS` (unknown attribute) exactly
for the names that are not in the schema, and with such a name every
name-checked getter fails with that error, for every type and every id. -/
theorem attribute_index_by_unique_name (E : Env) (dict_struct : DictionaryStructure)
    (stream : List Block) (d : FlatDictionary)
    (h : FlatDictionary.construct E dict_struct stream = .ok d)
    (hunique : (dict_struct.map (·.name)).Nodup) :
    (∀ (i : Nat) (a : DictionaryAttribute), dict_struct[i]? = some a →
      d.getAttributeIndex a.name = .ok i) ∧
    (∀ name, d.getAttributeIndex name = .error .BAD_ARGUMENTS ↔
      name ∉ dict_struct.map (·.name)) ∧
    (∀ name, (∃ e, d.getAttributeIndex name = .error e) ↔ name ∉ dict_struct.map (·.name)) ∧
    (∀ name, name ∉ dict_struct.map (·.name) →
      ∀ (T : attribute_type) (id : Nat), d.get T name id = .error .BAD_ARGUMENTS) := by
  have hspec := index_spec E dict_struct stream d h
  refine ⟨?_, ?_, ?_, ?_⟩
  · intro i a ha
    have hi : i < dict_struct.length := (List.getElem?_eq_some.mp ha).1
    have hai : dict_struct[i] = a := (List.getElem?_eq_some.mp ha).2
    have hmem : a.name ∈ dict_struct.map (·.name) := List.mem_map.mpr ⟨a, List.getElem?_mem ha, rfl⟩
    rw [hspec a.name, if_pos hmem]
    have hi2 : i < (dict_struct.map (·.name)).length := by simpa using hi
    have := List.indexOf_getElem hunique i hi2
    simp only [List.getElem_map, hai] at this
    rw [this]
  · intro name
    rw [hspec name]
    split_ifs with hmem <;> simp [hmem]
  · intro name
    rw [hspec name]
    split_ifs with hmem <;> simp [hmem]
  · intro name hname T id
    apply get_unknown
    rw [hspec name, if_neg hname]

/-- Witness of C5 on `regions`, whose two names differ: `title` resolves to
position 1 and `nonexistent` is refused with `BAD_ARGUMENTS`. -/
theorem attribute_index_by_unique_name_witness :
    ∃ d, FlatDictionary.construct decimalEnv regions regionBlocks = .ok d ∧
      d.getAttributeIndex "title" = .ok 1 ∧
      d.get .uint32 "nonexistent" 5 = .error .BAD_ARGUMENTS :=
  ⟨_, rfl,
    (attribute_index_by_unique_name decimalEnv regions regionBlocks _ rfl (by decide)).1 1
      ⟨"title", .string, "none", false⟩ rfl,
    (attribute_index_by_unique_name decimalEnv regions regionBlocks _ rfl (by decide)).2.2.2
      "nonexistent" (by decide) .uint32 5⟩

/-- C6 fails as stated, in both halves.  On a schema without attributes lines
41-48 never call `setAttributeValue`, so no id is checked and the construction
succeeds on a row whose id is `max_array_size`.  On a schema whose `uint8` null
value is the empty text, which `DB::parse` refuses, the construction fails with
the error of the parse: it does not complete although the only row id is
`max_array_size - 1`, and it does not fail with `ARGUMENT_OUT_OF_BOUND` on a
row whose id is `max_array_size`. -/
theorem load_time_bound_fails_as_stated :
    ((∃ row ∈ rowsOf [[regionRow max_array_size 0 ""]], max_array_size ≤ row.id) ∧
      FlatDictionary.construct decimalEnv [] [[regionRow max_array_size 0 ""]] =
        .ok ⟨[], [], none⟩) ∧
    (rowsOf [[regionRow (max_array_size - 1) 0 ""]] = [regionRow (max_array_size - 1) 0 ""] ∧
      (regionRow (max_array_size - 1) 0 "").id ≤ max_array_size - 1 ∧
      FlatDictionary.construct decimalEnv [⟨"level", .uint8, "", false⟩]
        [[regionRow (max_array_size - 1) 0 ""]] = .error .CANNOT_PARSE) ∧
    FlatDictionary.construct decimalEnv [⟨"level", .uint8, "", false⟩]
      [[regionRow max_array_size 0 ""]] = .error .CANNOT_PARSE :=
  ⟨⟨⟨_, List.mem_singleton.mpr rfl, le_refl _⟩, rfl⟩, ⟨rfl, le_refl _, rfl⟩, rfl⟩

/-- C6 as amended.  For a schema whose null values are all accepted by
`DB::parse`: if the schema has at least one attribute and some row of the
stream has an id at or above `max_array_size`, construction fails with
`ARGUMENT_OUT_OF_BOUND`; if every row id is at most `max_array_size - 1`,
construction completes; and with a schema of no attributes no id is checked
and construction completes whatever the ids of the stream. -/
theorem load_time_bound (E : Env) (dict_struct : DictionaryStructure) (stream : List Block)
    (hparse : parses E dict_struct) :
    (dict_struct ≠ [] → (∃ row ∈ rowsOf stream, max_array_size ≤ row.id) →
      FlatDictionary.construct E dict_struct stream = .error .ARGUMENT_OUT_OF_BOUND) ∧
    ((∀ row ∈ rowsOf stream, row.id ≤ max_array_size - 1) →
      ∃ d, FlatDictionary.construct E dict_struct stream = .ok d) ∧
    (dict_struct = [] →
      FlatDictionary.construct E dict_struct stream = .ok ⟨[], [], none⟩) := by
  obtain ⟨d0, h0⟩ := createAttributes_total E dict_struct hparse
  refine ⟨?_, ?_, ?_⟩
  · intro hne hbad
    obtain ⟨hlen, -, -, -⟩ := createAttributes_spec E dict_struct d0 h0
    have hwf := createAttributes_wf E dict_struct d0 h0
    have hne0 : d0.attributes ≠ [] := by
      intro he
      rw [he] at hlen
      exact hne (List.length_eq_zero.mp hlen.symm)
    simp [FlatDictionary.construct, bind, Except.bind, h0,
      loadStream_out_of_bound E stream d0.attributes hwf hne0 hbad]
  · intro hids
    exact construct_total E dict_struct stream d0 h0 (fun row hrow => by
      have := hids row hrow
      simp only [max_array_size] at this ⊢
      omega)
  · intro hnil
    subst hnil
    simp only [FlatDictionary.construct, createAttributes, List.foldlM_nil, bind, Except.bind,
      pure, Except.pure, loadStream_nil]

/-- Witness of C6 on `regions`, whose null values `0` and `none` parse: a row
with id `max_array_size` fails the construction and a row with id
`max_array_size - 1` does not; and on the schema without attributes, where the
row with id `max_array_size` is loaded. -/
theorem load_time_bound_witness :
    parses decimalEnv regions ∧
    FlatDictionary.construct decimalEnv regions [[regionRow max_array_size 0 ""]] =
      .error .ARGUMENT_OUT_OF_BOUND ∧
    (∃ d, FlatDictionary.construct decimalEnv regions [[regionRow (max_array_size - 1) 0 ""]] =
      .ok d) ∧
    FlatDictionary.construct decimalEnv [] [[regionRow max_array_size 0 ""]] =
      .ok ⟨[], [], none⟩ :=
  have hparse : parses decimalEnv regions := by
    intro a ha
    simp only [regions, List.mem_cons, List.mem_singleton, List.not_mem_nil, or_false] at ha
    rcases ha with rfl | rfl
    · rfl
    · rfl
  ⟨hparse,
    (load_time_bound decimalEnv regions [[regionRow max_array_size 0 ""]] hparse).1
      (by simp [regions]) ⟨_, List.mem_singleton.mpr rfl, le_refl _⟩,
    (load_time_bound decimalEnv regions [[regionRow (max_array_size - 1) 0 ""]] hparse).2.1
      (fun row hrow => by
        have : row = regionRow (max_array_size - 1) 0 "" := by
          simpa [rowsOf] using hrow
        rw [this]
        exact le_refl _),
    (load_time_bound decimalEnv [] [[regionRow max_array_size 0 ""]]
      (fun a ha => absurd ha (List.not_mem_nil a))).2.2 rfl⟩

/-- C7 (bound check of a write).  For every column in every state, every id
and every value, `setAttributeValue` fails with `ARGUMENT_OUT_OF_BOUND` exactly
when the id is at or above `max_array_size`, and then it leaves the column as
it was: no element is written, the reference array keeps its length and the
arena its chunks.  On a column in the state columns are in from their creation
on, a write below the bound does not fail. -/
theorem set_fails_iff_out_of_bound (E : Env) (attr : attribute_t) (id : Nat) (value : Field) :
    ((setAttributeValue E attr id value).2 = .error .ARGUMENT_OUT_OF_BOUND ↔
      max_array_size ≤ id) ∧
    (max_array_size ≤ id →
      (setAttributeValue E attr id value).1 = attr ∧
      (setAttributeValue E attr id value).1.string_array.size = attr.string_array.size ∧
      (setAttributeValue E attr id value).1.string_arena = attr.string_arena) ∧
    (attr.WF → id < max_array_size → (setAttributeValue E attr id value).2 = .ok ()) := by
  refine ⟨?_, ?_, fun hwf hid => (set_spec E attr id value hwf hid).1⟩
  · constructor
    · intro h
      by_contra hlt
      have hid : ¬ (id ≥ max_array_size) := hlt
      unfold setAttributeValue at h
      rw [if_neg hid] at h
      cases hty : attr.type <;> simp only [hty] at h <;>
        first
        | exact stored_outcome _ _ _ h
        | (cases ha : attr.string_arena with
           | none => simp [ha] at h
           | some arena =>
             simp only [ha] at h
             exact stored_outcome _ _ _ h)
    · intro h
      rw [set_out_of_bound E attr id value h]
  · intro h
    rw [set_out_of_bound E attr id value h]
    exact ⟨rfl, rfl, rfl⟩

/-- C8 (parent resolution).  After construction from a schema whose
hierarchical attribute `a`, at position `k`, has an integer type, `toParent`
returns for every id below `max_array_size` the value stored at that id in the
column, which is what the last row with that id carries for the attribute or,
when no row has the id, the column's null value, and for every other id the
column's null value; the value is converted to `id_t`. -/
theorem toParent_of_integer_column (E : Env) (dict_struct : DictionaryStructure)
    (stream : List Block) (d : FlatDictionary)
    (h : FlatDictionary.construct E dict_struct stream = .ok d)
    (k : Nat) (a : DictionaryAttribute) (hmarks : marks_hierarchical dict_struct k a)
    (hint : a.type.is_integer = true) (id : Nat) :
    ∃ attr0, createAttributeWithType E a.type a.null_value = .ok attr0 ∧
      d.toParent id = .ok (Datum.to_id
        (if id < max_array_size then
          match lastRow stream id with
          | some row => converted E a.type (row.value k)
          | none => attr0.null_value
        else attr0.null_value)) ∧
      d.toParent id = Datum.to_id <$> d.getUnsafe a.type k id := by
  have hk : d.hierarchical_attribute = some k :=
    (hierarchical_spec E dict_struct stream d h k).mpr ⟨a, hmarks⟩
  obtain ⟨attr0, attr, hc, hat, hwf, hty, hnull, -, -, -, -, hslot⟩ :=
    column_spec E dict_struct stream d h k a hmarks.1
  have hns : attr.type ≠ .string := by
    rw [hty]
    intro hs
    rw [hs] at hint
    cases hint
  have hlen : attr.len = max_array_size := hwf.1 hns
  refine ⟨attr0, hc, ?_, ?_⟩
  · rw [toParent_eq d k id attr hk hat, hty, hint]
    simp only [if_true]
    by_cases hid : id < max_array_size
    · rw [if_pos hid, if_pos hid, hslot id (by omega)]
      cases lastRow stream id with
      | some row => rfl
      | none =>
        simp only
        rw [if_neg (fun hs => hns (hty.trans hs.1))]
        rfl
    · rw [if_neg hid, if_neg hid, hnull]
      rfl
  · rw [toParent_eq d k id attr hk hat, hty, hint, getUnsafe_eq d a.type k id attr hat hty]
    simp only [if_true]

/-- Witness of C8 on `regions`, where the `uint32` column `parent` is the
hierarchical one, id 5 has parent 2 and id 2 has parent 0: `toParent(5)` is 2,
`toParent(2)` is 0 and `toParent(999999)` is the null value, 0. -/
theorem toParent_of_integer_column_witness :
    ∃ d, FlatDictionary.construct decimalEnv regions regionBlocks = .ok d ∧
      d.toParent 5 = .ok 2 ∧ d.toParent 2 = .ok 0 ∧ d.toParent 999999 = .ok 0 ∧
      ∃ attr0, createAttributeWithType decimalEnv .uint32 "0" = .ok attr0 ∧
        d.toParent 7 = .ok (Datum.to_id
          (if 7 < max_array_size then
            match lastRow regionBlocks 7 with
            | some row => converted decimalEnv .uint32 (row.value 0)
            | none => attr0.null_value
          else attr0.null_value)) ∧
        d.toParent 7 = Datum.to_id <$> d.getUnsafe .uint32 0 7 :=
  ⟨_, rfl, by decide, by decide, by decide,
    toParent_of_integer_column decimalEnv regions regionBlocks _ rfl 0
      ⟨"parent", .uint32, "0", true⟩
      ⟨rfl, rfl, fun j b hj hb => by
        have hj1 : j = 1 := by
          have := (List.getElem?_eq_some.mp hb).1
          simp only [regions, List.length_cons, List.length_nil] at this
          omega
        subst hj1
        cases hb
        rfl⟩
      rfl 7⟩

/-- C9 fails as stated: a schema that marks a `float64` attribute hierarchical
is loaded as any other schema is, and its construction fails with
`ARGUMENT_OUT_OF_BOUND` on a row whose id is `max_array_size` and with the
error of `DB::parse` on a null value that is the empty text. -/
theorem marked_float_column_can_fail_to_load :
    marks_hierarchical [⟨"weight", .float64, "0", true⟩] 0 ⟨"weight", .float64, "0", true⟩ ∧
    FlatDictionary.construct decimalEnv [⟨"weight", .float64, "0", true⟩]
      [[⟨max_array_size, fun _ => Field.ofUInt64 0⟩]] = .error .ARGUMENT_OUT_OF_BOUND ∧
    marks_hierarchical [⟨"weight", .float64, "", true⟩] 0 ⟨"weight", .float64, "", true⟩ ∧
    FlatDictionary.construct decimalEnv [⟨"weight", .float64, "", true⟩] [] =
      .error .CANNOT_PARSE :=
  ⟨⟨rfl, rfl, fun j b hj hb => by
      have := (List.getElem?_eq_some.mp hb).1
      simp only [List.length_cons, List.length_nil] at this
      omega⟩,
    rfl,
    ⟨rfl, rfl, fun j b hj hb => by
      have := (List.getElem?_eq_some.mp hb).1
      simp only [List.length_cons, List.length_nil] at this
      omega⟩,
    rfl⟩

/-- C9 as amended.  When the schema's hierarchical attribute has type
`float32`, `float64` or `string`: if every null value of the schema is
accepted by `DB::parse` and every row id is below `max_array_size`,
construction and load succeed, as they would without the mark; and in every
dictionary constructed from the schema `hasHierarchy()` is true and `toParent`
fails with `TYPE_MISMATCH` for every id, those at or above `max_array_size`
included. -/
theorem toParent_of_non_integer_column (E : Env) (dict_struct : DictionaryStructure)
    (stream : List Block) (k : Nat) (a : DictionaryAttribute)
    (hmarks : marks_hierarchical dict_struct k a) (hnot : a.type.is_integer = false) :
    (parses E dict_struct → (∀ row ∈ rowsOf stream, row.id < max_array_size) →
      ∃ d, FlatDictionary.construct E dict_struct stream = .ok d ∧ d.hasHierarchy = true ∧
        ∀ id, d.toParent id = .error .TYPE_MISMATCH) ∧
    (∀ d, FlatDictionary.construct E dict_struct stream = .ok d →
      d.hasHierarchy = true ∧ ∀ id, d.toParent id = .error .TYPE_MISMATCH) := by
  have hall : ∀ d, FlatDictionary.construct E dict_struct stream = .ok d →
      d.hasHierarchy = true ∧ ∀ id, d.toParent id = .error .TYPE_MISMATCH := by
    intro d h
    have hk : d.hierarchical_attribute = some k :=
      (hierarchical_spec E dict_struct stream d h k).mpr ⟨a, hmarks⟩
    obtain ⟨attr0, attr, -, hat, -, hty, -⟩ := column_spec E dict_struct stream d h k a hmarks.1
    refine ⟨by simp [FlatDictionary.hasHierarchy, hk], ?_⟩
    intro id
    rw [toParent_eq d k id attr hk hat, hty, hnot]
    simp
  refine ⟨?_, hall⟩
  intro hparse hids
  obtain ⟨d0, h0⟩ := createAttributes_total E dict_struct hparse
  obtain ⟨d, h⟩ := construct_total E dict_struct stream d0 h0 hids
  exact ⟨d, h, hall d h⟩

/-- Witness of C9 on three schemas whose only attribute is marked hierarchical
and has type `float32`, `float64` and `string`, each with one row loaded. -/
theorem toParent_of_non_integer_column_witness :
    (∃ d, FlatDictionary.construct decimalEnv [⟨"weight", .float32, "0", true⟩]
        [[⟨3, fun _ => Field.ofUInt64 7⟩]] = .ok d ∧
      d.hasHierarchy = true ∧ ∀ id, d.toParent id = .error .TYPE_MISMATCH) ∧
    (∃ d, FlatDictionary.construct decimalEnv [⟨"weight", .float64, "0", true⟩]
        [[⟨3, fun _ => Field.ofUInt64 7⟩]] = .ok d ∧
      d.hasHierarchy = true ∧ ∀ id, d.toParent id = .error .TYPE_MISMATCH) ∧
    (∃ d, FlatDictionary.construct decimalEnv [⟨"title", .string, "none", true⟩]
        [[⟨3, fun _ => Field.ofString "three"⟩]] = .ok d ∧
      d.hasHierarchy = true ∧ ∀ id, d.toParent id = .error .TYPE_MISMATCH) :=
  ⟨(toParent_of_non_integer_column decimalEnv [⟨"weight", .float32, "0", true⟩]
      [[⟨3, fun _ => Field.ofUInt64 7⟩]] 0 ⟨"weight", .float32, "0", true⟩
      ⟨rfl, rfl, fun j b hj hb => by
        have := (List.getElem?_eq_some.mp hb).1
        simp only [List.length_cons, List.length_nil] at this
        omega⟩
      rfl).1
      (fun b hb => by
        have : b = ⟨"weight", .float32, "0", true⟩ := by simpa using hb
        rw [this]
        rfl)
      (fun row hrow => by
        have : row = ⟨3, fun _ => Field.ofUInt64 7⟩ := by simpa [rowsOf] using hrow
        rw [this]
        decide),
    (toParent_of_non_integer_column decimalEnv [⟨"weight", .float64, "0", true⟩]
      [[⟨3, fun _ => Field.ofUInt64 7⟩]] 0 ⟨"weight", .float64, "0", true⟩
      ⟨rfl, rfl, fun j b hj hb => by
        have := (List.getElem?_eq_some.mp hb).1
        simp only [List.length_cons, List.length_nil] at this
        omega⟩
      rfl).1
      (fun b hb => by
        have : b = ⟨"weight", .float64, "0", true⟩ := by simpa using hb
        rw [this]
        rfl)
      (fun row hrow => by
        have : row = ⟨3, fun _ => Field.ofUInt64 7⟩ := by simpa [rowsOf] using hrow
        rw [this]
        decide),
    (toParent_of_non_integer_column decimalEnv [⟨"title", .string, "none", true⟩]
      [[⟨3, fun _ => Field.ofString "three"⟩]] 0 ⟨"title", .string, "none", true⟩
      ⟨rfl, rfl, fun j b hj hb => by
        have := (List.getElem?_eq_some.mp hb).1
        simp only [List.length_cons, List.length_nil] at this
        omega⟩
      rfl).1
      (fun b hb => by
        have : b = ⟨"title", .string, "none", true⟩ := by simpa using hb
        rw [this]
        rfl)
      (fun row hrow => by
        have : row = ⟨3, fun _ => Field.ofString "three"⟩ := by simpa [rowsOf] using hrow
        rw [this]
        decide)⟩

/-- C10 (the unchecked getter refines the checked one).  In every dictionary,
for an index `i` whose column has type `T`, a name that resolves to `i` and
every id, `getUnsafe<T>(i, id)` returns exactly what `get<T>(name, id)`
returns: the same element, the same null value, or the same read outside the
array. -/
theorem unchecked_getter_agrees (d : FlatDictionary) (T : attribute_type) (name : String)
    (i id : Nat) (attr : attribute_t) (hidx : d.getAttributeIndex name = .ok i)
    (hattr : d.attributeAt i = .ok attr) (hty : attr.type = T) :
    d.getUnsafe T i id = d.get T name id := by
  rw [getUnsafe_eq d T i id attr hattr hty, get_eq d T name id i attr hidx hattr]
  simp [hty]

/-- Witness of C10 on the dictionary built from `regions`, for the string
column at index 1. -/
theorem unchecked_getter_agrees_witness :
    ∃ d, FlatDictionary.construct decimalEnv regions regionBlocks = .ok d ∧
      d.getUnsafe .string 1 5 = d.get .string "title" 5 ∧
      d.getUnsafe .string 1 5 = .ok (.string "FIVE") :=
  ⟨_, rfl, unchecked_getter_agrees _ .string "title" 1 5 _ rfl rfl rfl, by decide⟩

/-- C11 (growth of a string column), at the input where the code departs from
it: `titles` loaded with the ids 1000, 0 and 5, which leaves the column with
2000 references.  The three ids return their strings, and the unwritten ids
128 and 999, whose slots the growth made, return the null value.  The
unwritten id 1 holds a reference made at creation (line 249), into the
`string_null_value` of the object that line 27 then moved from, and the getter
follows it: the read is undefined. -/
theorem creation_time_references_dangle :
    ∃ d attr, FlatDictionary.construct decimalEnv titles titleBlocks = .ok d ∧
      d.attributeAt 0 = .ok attr ∧ attr.string_array.size = 2000 ∧
      d.get .string "title" 0 = .ok (.string "zero") ∧
      d.get .string "title" 5 = .ok (.string "five") ∧
      d.get .string "title" 1000 = .ok (.string "thousand") ∧
      d.get .string "title" 128 = .ok (.string "none") ∧
      d.get .string "title" 999 = .ok (.string "none") ∧
      (attr.string_array.cell 128).data = CharPtr.null_value_data ∧
      (attr.string_array.cell 1).data = CharPtr.moved_from ∧
      d.get .string "title" 1 = .error .UNDEFINED :=
  ⟨_, _, rfl, rfl, rfl, by decide, by decide, by decide, by decide, by decide, rfl, rfl,
    by decide⟩

/-- C12 (the hierarchical reference).  After construction, `hasHierarchy()` is
true exactly when the schema marks an attribute hierarchical; and when the
attribute `a` at position `k` is the only one marked, the hierarchical
reference points at the column at index `k`, which is the column created for
`a` and loaded with its values, and that column is the one `toParent` reads. -/
theorem hasHierarchy_iff_marked (E : Env) (dict_struct : DictionaryStructure)
    (stream : List Block) (d : FlatDictionary)
    (h : FlatDictionary.construct E dict_struct stream = .ok d) :
    (d.hasHierarchy = true ↔ ∃ a ∈ dict_struct, a.hierarchical = true) ∧
    ∀ (k : Nat) (a : DictionaryAttribute), dict_struct[k]? = some a → a.hierarchical = true →
      (∀ (j : Nat) (b : DictionaryAttribute),
        dict_struct[j]? = some b → b.hierarchical = true → j = k) →
      d.hierarchical_attribute = some k ∧
      ∃ attr0 attr, createAttributeWithType E a.type a.null_value = .ok attr0 ∧
        loadRows E k attr0.moved (rowsOf stream) = .ok attr ∧
        d.attributeAt k = .ok attr ∧ attr.type = a.type ∧
        ∀ id, d.toParent id =
          if a.type.is_integer then Datum.to_id <$> d.getUnsafe a.type k id
          else .error .TYPE_MISMATCH := by
  constructor
  · constructor
    · intro hh
      cases hk : d.hierarchical_attribute with
      | none => simp [FlatDictionary.hasHierarchy, hk] at hh
      | some k =>
        obtain ⟨a, ha, hm, -⟩ := (hierarchical_spec E dict_struct stream d h k).mp hk
        exact ⟨a, List.getElem?_mem ha, hm⟩
    · intro hex
      obtain ⟨k, a, hm⟩ := exists_last_marked dict_struct hex
      have hk := (hierarchical_spec E dict_struct stream d h k).mpr ⟨a, hm⟩
      simp [FlatDictionary.hasHierarchy, hk]
  · intro k a ha hmark honly
    have hm : marks_hierarchical dict_struct k a := by
      refine ⟨ha, hmark, ?_⟩
      intro j b hj hb
      by_contra hbt
      have hbt2 : b.hierarchical = true := by simpa using hbt
      have := honly j b hb hbt2
      omega
    have hk := (hierarchical_spec E dict_struct stream d h k).mpr ⟨a, hm⟩
    obtain ⟨attr0, attr, hc, hat, -, hty, -, -, -, hload, -, -⟩ :=
      column_spec E dict_struct stream d h k a ha
    refine ⟨hk, attr0, attr, hc, hload, hat, hty, ?_⟩
    intro id
    rw [toParent_eq d k id attr hk hat, hty]
    by_cases hint : a.type.is_integer = true
    · rw [if_pos hint, if_pos hint, getUnsafe_eq d a.type k id attr hat hty]
    · rw [if_neg hint, if_neg hint]

/-- Witness of C12 on `regions`, where `parent`, at position 0, is the only
attribute marked, and on `titles`, where none is. -/
theorem hasHierarchy_iff_marked_witness :
    (∃ d, FlatDictionary.construct decimalEnv regions regionBlocks = .ok d ∧
      d.hasHierarchy = true ∧ d.hierarchical_attribute = some 0) ∧
    (∃ d, FlatDictionary.construct decimalEnv titles titleBlocks = .ok d ∧
      d.hasHierarchy = false ∧
      (d.hasHierarchy = true ↔ ∃ a ∈ titles, a.hierarchical = true)) :=
  ⟨⟨_, rfl,
    (hasHierarchy_iff_marked decimalEnv regions regionBlocks _ rfl).1.mpr
      ⟨⟨"parent", .uint32, "0", true⟩, by simp [regions], rfl⟩,
    ((hasHierarchy_iff_marked decimalEnv regions regionBlocks _ rfl).2 0
      ⟨"parent", .uint32, "0", true⟩ rfl rfl (fun j b hb hbt => by
        have hj : j < 2 := by
          have := (List.getElem?_eq_some.mp hb).1
          simpa [regions] using this
        by_contra hne
        have hj1 : j = 1 := by omega
        subst hj1
        cases hb
        cases hbt)).1⟩,
   ⟨_, rfl, by decide, (hasHierarchy_iff_marked decimalEnv titles titleBlocks _ rfl).1⟩⟩

/-- C13 fails as stated: a write at id 200 into a string column of 128
references grows it to 256, since `2 * 128 > 200`, while
`min(max_array_size, max(2 * 128, 2 * 200))` is 400. -/
theorem growth_is_not_the_maximum :
    ∃ attr, createAttributeWithType decimalEnv .string "none" = .ok attr ∧
      attr.string_array.size = 128 ∧
      (setAttributeValue decimalEnv attr 200 (Field.ofString "x")).2 = .ok () ∧
      (setAttributeValue decimalEnv attr 200 (Field.ofString "x")).1.string_array.size = 256 ∧
      (setAttributeValue decimalEnv attr 200 (Field.ofString "x")).1.string_array.size ≠
        min max_array_size (max (2 * attr.string_array.size) (2 * 200)) :=
  ⟨_, rfl, rfl, rfl, rfl, by decide⟩

/-- C13 as amended.  When `setAttributeValue` grows the reference array of a
string column, that is on a write at an id below `max_array_size` and not below
the current length, the new length is `min(max_array_size, 2 * current_length)`
if `2 * current_length > id` and `min(max_array_size, 2 * id)` otherwise, for
every current length and id.  This is the claimed
`min(max_array_size, max(2 * current_length, 2 * id))` exactly when the two
agree, as they do once `id` is the current length or at least twice it. -/
theorem growth_length (E : Env) (attr : attribute_t) (id : Nat) (value : Field)
    (hstring : attr.type = .string) (harena : attr.string_arena ≠ none)
    (hid : id < max_array_size) (hgrow : attr.string_array.size ≤ id) :
    (setAttributeValue E attr id value).1.string_array.size =
      min max_array_size
        (if 2 * attr.string_array.size > id then 2 * attr.string_array.size else 2 * id) ∧
    (id = attr.string_array.size ∨ 2 * attr.string_array.size ≤ id →
      (setAttributeValue E attr id value).1.string_array.size =
        min max_array_size (max (2 * attr.string_array.size) (2 * id))) := by
  obtain ⟨arena, ha⟩ := Option.ne_none_iff_exists'.mp harena
  have hid2 : ¬ (id ≥ max_array_size) := by omega
  have hg : id ≥ attr.string_array.size := hgrow
  have hsize : (setAttributeValue E attr id value).1.string_array.size =
      min max_array_size
        (if 2 * attr.string_array.size > id then 2 * attr.string_array.size else 2 * id) := by
    by_cases hN : id < min max_array_size
        (if 2 * attr.string_array.size > id then 2 * attr.string_array.size else 2 * id)
    · simp only [setAttributeValue, hid2, if_false, hstring, ha, hg, if_true, stored, writeAt,
        Vec.resize, hN, Vec.set]
    · simp only [setAttributeValue, hid2, if_false, hstring, ha, hg, if_true, stored, writeAt,
        Vec.resize, hN]
  refine ⟨hsize, ?_⟩
  intro hagree
  rw [hsize]
  congr 1
  split_ifs with h2
  · rcases hagree with h3 | h3
    · rw [h3]; simp
    · omega
  · rw [max_eq_right (by omega)]

/-- Witness of C13 on a string column as created: a write at id 1000 grows
its 128 references to 2000. -/
theorem growth_length_witness :
    ∃ attr, createAttributeWithType decimalEnv .string "none" = .ok attr ∧
      (setAttributeValue decimalEnv attr 1000 (Field.ofString "x")).1.string_array.size =
        2000 :=
  ⟨_, rfl,
    (growth_length decimalEnv _ 1000 (Field.ofString "x") rfl (by decide) (by decide)
      (by decide)).1⟩

/-- C14 (frame of a write).  A successful `setAttributeValue(column, id,
value)` on a column in the state columns are in from their creation on changes
only what is visible at `id`: the type and the null value stay, `id` now reads
the value written, every other id below the previous length reads what it
read before, and in a string column every other reference below the previous
length is the reference it was and every slot the growth created, other than
`id`, holds the null-value reference. -/
theorem set_changes_only_id (E : Env) (attr : attribute_t) (id : Nat) (value : Field)
    (hwf : attr.WF) (hok : (setAttributeValue E attr id value).2 = .ok ()) :
    (setAttributeValue E attr id value).1.type = attr.type ∧
    (setAttributeValue E attr id value).1.null_value = attr.null_value ∧
    (setAttributeValue E attr id value).1.slot id = .ok (converted E attr.type value) ∧
    (∀ j, j ≠ id → j < attr.len →
      (setAttributeValue E attr id value).1.slot j = attr.slot j) ∧
    (attr.type = .string →
      (∀ j, j ≠ id → j < attr.string_array.size →
        (setAttributeValue E attr id value).1.string_array.cell j =
          attr.string_array.cell j) ∧
      (∀ j, j ≠ id → attr.string_array.size ≤ j →
        j < (setAttributeValue E attr id value).1.string_array.size →
        (setAttributeValue E attr id value).1.string_array.cell j =
          null_ref attr.string_null_value)) := by
  have hid : id < max_array_size := by
    by_contra hge
    rw [set_out_of_bound E attr id value (by omega)] at hok
    cases hok
  obtain ⟨-, -, hty, hnull, hle, hlt, hslot⟩ := set_spec E attr id value hwf hid
  refine ⟨hty, hnull, ?_, ?_, ?_⟩
  · rw [hslot id hlt, if_pos rfl]
  · intro j hj hjl
    rw [hslot j (by omega), if_neg hj, if_pos hjl]
  · intro hstring
    obtain ⟨harena, hlo, -⟩ := hwf.2.1 hstring
    simp only [attribute_t.len, hstring, initial_array_size] at hlo
    obtain ⟨arena, ha⟩ := Option.ne_none_iff_exists'.mp harena
    have heq := set_string_eq E attr id value arena hid hstring ha hlo
    have harr : (setAttributeValue E attr id value).1.string_array =
        (if id ≥ attr.string_array.size then
          attr.string_array.resize
            (min max_array_size
              (if 2 * attr.string_array.size > id then 2 * attr.string_array.size else 2 * id))
            (null_ref attr.string_null_value)
         else attr.string_array).set id
          ⟨CharPtr.arena arena.length, value.get_String.utf8ByteSize⟩ := by rw [heq]
    have hlen0 : attr.string_array.size ≤
        (setAttributeValue E attr id value).1.string_array.size := by
      have := hle
      simpa only [attribute_t.len, hty, hstring] using this
    constructor
    · intro j hj hjl
      have hj2 : j < (setAttributeValue E attr id value).1.string_array.size := by omega
      rw [harr] at hj2 ⊢
      simp only [Vec.set, hj, if_false] at hj2 ⊢
      rw [grown_cell attr.string_array id j _ hlo hid hj2, if_pos hjl]
    · intro j hj hjl hj2
      rw [harr] at hj2 ⊢
      simp only [Vec.set, hj, if_false] at hj2 ⊢
      rw [grown_cell attr.string_array id j _ hlo hid hj2, if_neg (by omega)]

/-- Witness of C14 on a string column as created: the write at id 200 grows
the column to 256 references, leaves id 7 with the null value and the null
reference, and fills slot 255 with the null reference. -/
theorem set_changes_only_id_witness :
    ∃ attr, createAttributeWithType decimalEnv .string "none" = .ok attr ∧
      (setAttributeValue decimalEnv attr 200 (Field.ofString "x")).1.slot 200 =
        .ok (.string "x") ∧
      (setAttributeValue decimalEnv attr 200 (Field.ofString "x")).1.slot 7 = attr.slot 7 ∧
      (setAttributeValue decimalEnv attr 200 (Field.ofString "x")).1.string_array.cell 255 =
        null_ref "none" :=
  ⟨_, rfl,
    (set_changes_only_id decimalEnv _ 200 (Field.ofString "x")
      (create_spec decimalEnv .string "none" _ rfl).1 rfl).2.2.1,
    (set_changes_only_id decimalEnv _ 200 (Field.ofString "x")
      (create_spec decimalEnv .string "none" _ rfl).1 rfl).2.2.2.1 7 (by decide) (by decide),
    ((set_changes_only_id decimalEnv _ 200 (Field.ofString "x")
      (create_spec decimalEnv .string "none" _ rfl).1 rfl).2.2.2.2 rfl).2 255 (by decide)
      (by decide) (by decide)⟩

/-- C15 (length of a string column).  A string column is created with
`initial_array_size` references and has them still when line 27 has moved it
into the vector; after every sequence of successful `setAttributeValue` calls
on it, as created or as moved, the number of references lies between
`initial_array_size` and `max_array_size` and is not below what it was; and a
further write at an id below `max_array_size` succeeds, does not shorten the
array and leaves it longer than `id`, so that the one growth step covers the
id written. -/
theorem string_length_invariant (E : Env) (null_value : String) (attr0 : attribute_t)
    (hc : createAttributeWithType E .string null_value = .ok attr0) :
    attr0.string_array.size = initial_array_size ∧
    attr0.moved.string_array.size = initial_array_size ∧
    ∀ (start : attribute_t), start = attr0 ∨ start = attr0.moved →
    ∀ (idx : Nat) (rows : List Row) (attr : attribute_t),
      loadRows E idx start rows = .ok attr →
      initial_array_size ≤ attr.string_array.size ∧
      attr.string_array.size ≤ max_array_size ∧
      start.string_array.size ≤ attr.string_array.size ∧
      ∀ (id : Nat) (value : Field), id < max_array_size →
        (setAttributeValue E attr id value).2 = .ok () ∧
        attr.string_array.size ≤ (setAttributeValue E attr id value).1.string_array.size ∧
        id < (setAttributeValue E attr id value).1.string_array.size ∧
        (setAttributeValue E attr id value).1.string_array.size ≤ max_array_size := by
  obtain ⟨hwf00, hty00, -, hlen00⟩ := create_spec E .string null_value attr0 hc
  have hl00 : attr0.len = attr0.string_array.size := by simp only [attribute_t.len, hty00]
  rw [if_pos rfl, hl00] at hlen00
  refine ⟨hlen00, hlen00, ?_⟩
  intro start hstart idx rows attr hload
  have hwf0 : start.WF := by
    rcases hstart with h | h
    · rw [h]; exact hwf00
    · rw [h]; exact moved_wf attr0 hwf00
  have hty0 : start.type = .string := by
    rcases hstart with h | h
    · rw [h]; exact hty00
    · rw [h]; exact hty00
  have hl0 : start.len = start.string_array.size := by simp only [attribute_t.len, hty0]
  have hids := loadRows_ids E idx rows start attr hwf0 hload
  obtain ⟨attr2, h2, hwf, hty, -, hle, -, -⟩ := loadRows_spec E idx rows start hwf0 hids
  rw [hload] at h2
  cases h2
  have hs : attr.type = .string := hty.trans hty0
  have hl : attr.len = attr.string_array.size := by simp only [attribute_t.len, hs]
  obtain ⟨-, hlo, hhi⟩ := hwf.2.1 hs
  rw [hl] at hlo hhi
  rw [hl0, hl] at hle
  refine ⟨hlo, hhi, hle, ?_⟩
  intro id value hid
  obtain ⟨hok, hwf3, hty3, -, hle3, hlt3, -⟩ := set_spec E attr id value hwf hid
  have hs3 : (setAttributeValue E attr id value).1.type = .string := hty3.trans hs
  have hl3 : (setAttributeValue E attr id value).1.len =
      (setAttributeValue E attr id value).1.string_array.size := by
    simp only [attribute_t.len, hs3]
  obtain ⟨-, -, hhi3⟩ := hwf3.2.1 hs3
  rw [hl3] at hle3 hlt3 hhi3
  rw [hl] at hle3
  exact ⟨hok, hle3, hlt3, hhi3⟩

/-- Witness of C15 on the string column of `titles`, as line 27 moves it into
the vector: after the writes at 1000 and 0 the column has 2000 references, and
a further write at 499999 leaves it with `max_array_size`. -/
theorem string_length_invariant_witness :
    ∃ attr0 attr, createAttributeWithType decimalEnv .string "none" = .ok attr0 ∧
      loadRows decimalEnv 0 attr0.moved [titleRow 1000 "thousand", titleRow 0 "zero"] =
        .ok attr ∧
      attr.string_array.size = 2000 ∧
      (setAttributeValue decimalEnv attr 499999 (Field.ofString "x")).1.string_array.size =
        max_array_size ∧
      initial_array_size ≤ attr.string_array.size ∧
      attr.string_array.size ≤ max_array_size ∧
      attr0.moved.string_array.size ≤ attr.string_array.size ∧
      ∀ (id : Nat) (value : Field), id < max_array_size →
        (setAttributeValue decimalEnv attr id value).2 = .ok () ∧
        attr.string_array.size ≤
          (setAttributeValue decimalEnv attr id value).1.string_array.size ∧
        id < (setAttributeValue decimalEnv attr id value).1.string_array.size ∧
        (setAttributeValue decimalEnv attr id value).1.string_array.size ≤ max_array_size :=
  ⟨_, _, rfl, rfl, rfl, rfl,
    (string_length_invariant decimalEnv "none" _ rfl).2.2 _ (Or.inr rfl) 0
      [titleRow 1000 "thousand", titleRow 0 "zero"] _ rfl⟩

/-- C16 (narrowing of unsigned values).  After construction, for an attribute
`a` of the schema that its name resolves to and an id whose last row carries
the unsigned 64-bit value `v` for it, the getter of the type of `a` reads, at
that id, `v mod 2^8` in a `uint8` column, `v mod 2^16` in a `uint16` column,
`v mod 2^32` in a `uint32` column and `v` itself in a `uint64` column. -/
theorem narrowing_of_unsigned (E : Env) (dict_struct : DictionaryStructure)
    (stream : List Block) (d : FlatDictionary)
    (h : FlatDictionary.construct E dict_struct stream = .ok d)
    (i : Nat) (a : DictionaryAttribute) (ha : dict_struct[i]? = some a)
    (hidx : d.getAttributeIndex a.name = .ok i)
    (id : Nat) (row : Row) (hrow : lastRow stream id = some row) :
    (row.value i).get_UInt64 < 2 ^ 64 ∧ id < max_array_size ∧
    (a.type = .uint8 →
      d.get .uint8 a.name id = .ok (.uint ((row.value i).get_UInt64 % 2 ^ 8))) ∧
    (a.type = .uint16 →
      d.get .uint16 a.name id = .ok (.uint ((row.value i).get_UInt64 % 2 ^ 16))) ∧
    (a.type = .uint32 →
      d.get .uint32 a.name id = .ok (.uint ((row.value i).get_UInt64 % 2 ^ 32))) ∧
    (a.type = .uint64 →
      d.get .uint64 a.name id = .ok (.uint (row.value i).get_UInt64)) := by
  have hget := get_written E dict_struct stream d h i a ha hidx id row hrow
  have hid : id < max_array_size := by
    obtain ⟨attr0, attr, -, -, -, -, -, -, hmax, -, hids, -⟩ :=
      column_spec E dict_struct stream d h i a ha
    obtain ⟨hmem, hrid⟩ := find_last_mem (rowsOf stream) id row hrow
    have := hids row hmem
    omega
  refine ⟨get_UInt64_lt _, hid, ?_, ?_, ?_, ?_⟩ <;> intro hty <;> rw [hty] at hget <;>
    rw [hget] <;> simp only [converted, castUInt]
  exact congrArg (fun v => Except.ok (Datum.uint v)) (castUInt_64_get _)

/-- Witness of C16 on a schema with one `uint8` attribute, `level`: the value
300 written at id 9 reads back as 44. -/
theorem narrowing_of_unsigned_witness :
    ∃ d, FlatDictionary.construct decimalEnv [⟨"level", .uint8, "0", false⟩]
        [[⟨9, fun _ => Field.ofUInt64 300⟩]] = .ok d ∧
      d.get .uint8 "level" 9 = .ok (.uint 44) :=
  ⟨_, rfl,
    (narrowing_of_unsigned decimalEnv [⟨"level", .uint8, "0", false⟩]
      [[⟨9, fun _ => Field.ofUInt64 300⟩]] _ rfl 0 ⟨"level", .uint8, "0", false⟩ rfl rfl 9
      ⟨9, fun _ => Field.ofUInt64 300⟩ rfl).2.2.1 rfl⟩

/-- C17 (signed parents).  After construction from a schema whose hierarchical
attribute `a`, at position `k`, has a signed integer type, for every id the
value `v` stored at `id` in the column, or its null value when `id` is not
below `max_array_size`, is a 64-bit signed integer and `toParent(id)` returns
it cast to `id_t`: `v` itself when `v ≥ 0` and `v + 2^64` when `v < 0`. -/
theorem toParent_of_signed_column (E : Env) (dict_struct : DictionaryStructure)
    (stream : List Block) (d : FlatDictionary)
    (h : FlatDictionary.construct E dict_struct stream = .ok d)
    (k : Nat) (a : DictionaryAttribute) (hmarks : marks_hierarchical dict_struct k a)
    (hsigned : a.type.is_signed = true) (id : Nat) :
    ∃ v : Int, d.getUnsafe a.type k id = .ok (.int v) ∧ -(2 ^ 63) ≤ v ∧ v < 2 ^ 63 ∧
      d.toParent id = .ok (if 0 ≤ v then v.toNat else (v + 2 ^ 64).toNat) := by
  have hk : d.hierarchical_attribute = some k :=
    (hierarchical_spec E dict_struct stream d h k).mpr ⟨a, hmarks⟩
  obtain ⟨attr0, attr, hc, hat, hwf, hty, hnull, -, -, -, -, hslot⟩ :=
    column_spec E dict_struct stream d h k a hmarks.1
  have hint : a.type.is_integer = true := by
    cases hT : a.type <;> rw [hT] at hsigned <;>
      simp only [attribute_type.is_signed, attribute_type.is_integer] at hsigned ⊢ <;>
      cases hsigned
  have hns : attr.type ≠ .string := by
    rw [hty]
    intro hs
    rw [hs] at hsigned
    cases hsigned
  have hlen : attr.len = max_array_size := hwf.1 hns
  have hval : ∃ v : Int,
      (if id < max_array_size then attr.slot id else .ok attr.null_value) = .ok (.int v) ∧
      -(2 ^ 63) ≤ v ∧ v < 2 ^ 63 := by
    by_cases hid : id < max_array_size
    · rw [if_pos hid, hslot id (by omega)]
      cases lastRow stream id with
      | some row =>
        obtain ⟨v, hv, hr⟩ := converted_signed E a.type (row.value k) hsigned
        exact ⟨v, by simp only [hv], hr⟩
      | none =>
        obtain ⟨v, hv, hr⟩ := created_null_signed E a.type a.null_value attr0 hc hsigned
        exact ⟨v, by simp only [hv]; exact if_neg (fun hs => hns (hty.trans hs.1)), hr⟩
    · rw [if_neg hid, hnull]
      obtain ⟨v, hv, hr⟩ := created_null_signed E a.type a.null_value attr0 hc hsigned
      exact ⟨v, by simp only [hv], hr⟩
  obtain ⟨v, hv, hlo, hhi⟩ := hval
  refine ⟨v, ?_, hlo, hhi, ?_⟩
  · rw [getUnsafe_eq d a.type k id attr hat hty, hv]
  · rw [toParent_eq d k id attr hk hat, hty, hint, if_pos rfl, hv]
    simp only [Functor.map, Except.map, Datum.to_id]
    rw [to_id_t_eq v hlo hhi]

/-- Witness of C17 on `ancestors`, an `int8` column with null value -1 where
id 3 has parent -2 and id 4 has parent 3: `toParent(3)` is `2^64 - 2`,
`toParent(4)` is 3 and `toParent(999999)` is `2^64 - 1`. -/
theorem toParent_of_signed_column_witness :
    ∃ d, FlatDictionary.construct decimalEnv ancestors ancestorBlocks = .ok d ∧
      d.toParent 3 = .ok (2 ^ 64 - 2) ∧ d.toParent 4 = .ok 3 ∧
      d.toParent 999999 = .ok (2 ^ 64 - 1) ∧
      ∃ v : Int, d.getUnsafe .int8 0 3 = .ok (.int v) ∧ -(2 ^ 63) ≤ v ∧ v < 2 ^ 63 ∧
        d.toParent 3 = .ok (if 0 ≤ v then v.toNat else (v + 2 ^ 64).toNat) :=
  ⟨_, rfl, by decide, by decide, by decide,
    toParent_of_signed_column decimalEnv ancestors ancestorBlocks _ rfl 0
      ⟨"parent", .int8, "-1", true⟩
      ⟨rfl, rfl, fun j b hj hb => by
        have := (List.getElem?_eq_some.mp hb).1
        simp only [ancestors, List.length_cons, List.length_nil] at this
        omega⟩
      rfl 3⟩

/-- C18 (reads stay inside the arrays), at the input where the code departs
from it: in the dictionary built from `regions` and `regionBlocks`, whose rows
have the ids 5 and 2, the numeric column has `max_array_size` elements but the
string column still has its 128 references, and the checked and the unchecked
string getter, called with id 300, index the vector at 300, outside it. -/
theorem string_getters_read_past_the_length :
    ∃ d numeric string, FlatDictionary.construct decimalEnv regions regionBlocks = .ok d ∧
      d.attributeAt 0 = .ok numeric ∧ lengthOf numeric.uint32_array = max_array_size ∧
      d.attributeAt 1 = .ok string ∧ string.type = .string ∧
      string.string_array.size = 128 ∧
      d.get .string "title" 300 = .error .UNDEFINED ∧
      d.getUnsafe .string 1 300 = .error .UNDEFINED :=
  ⟨_, _, _, rfl, rfl, rfl, rfl, rfl, rfl, by decide, by decide⟩

/-- C19 fails as stated when a null value does not parse: both constructions
fail, alike, but with the error of `DB::parse` and before any row is read. -/
theorem same_rows_fail_to_parse_alike :
    rowsOf [[regionRow 1 0 "a"], [regionRow 2 0 "b"]] =
      rowsOf [[regionRow 1 0 "a", regionRow 2 0 "b"]] ∧
    FlatDictionary.construct decimalEnv [⟨"level", .uint8, "", false⟩]
      [[regionRow 1 0 "a"], [regionRow 2 0 "b"]] = .error .CANNOT_PARSE ∧
    FlatDictionary.construct decimalEnv [⟨"level", .uint8, "", false⟩]
      [[regionRow 1 0 "a", regionRow 2 0 "b"]] = .error .CANNOT_PARSE :=
  ⟨rfl, rfl, rfl⟩

/-- C19 as amended.  For one schema and two streams whose blocks concatenate
to the same sequence of rows, the two constructions have the same outcome:
both fail with the same error, which is `ARGUMENT_OUT_OF_BOUND` or the error
with which the creation of the columns fails, or both succeed with the same
dictionary, so that every getter returns the same result for every name, index
and id. -/
theorem batches_do_not_matter (E : Env) (dict_struct : DictionaryStructure)
    (s1 s2 : List Block) (hrows : rowsOf s1 = rowsOf s2) :
    (∃ e, FlatDictionary.construct E dict_struct s1 = .error e ∧
      FlatDictionary.construct E dict_struct s2 = .error e ∧
      (e = .ARGUMENT_OUT_OF_BOUND ∨ createAttributes E dict_struct = .error e)) ∨
    (∃ d1 d2, FlatDictionary.construct E dict_struct s1 = .ok d1 ∧
      FlatDictionary.construct E dict_struct s2 = .ok d2 ∧ d1 = d2 ∧
      (∀ T name id, d1.get T name id = d2.get T name id) ∧
      (∀ T i id, d1.getUnsafe T i id = d2.getUnsafe T i id) ∧
      (∀ T i, d1.is T i = d2.is T i) ∧
      (∀ name, d1.getAttributeIndex name = d2.getAttributeIndex name) ∧
      (∀ id, d1.toParent id = d2.toParent id)) := by
  rw [construct_eq E dict_struct s1, construct_eq E dict_struct s2]
  cases h0 : createAttributes E dict_struct with
  | error e => exact Or.inl ⟨e, rfl, rfl, Or.inr rfl⟩
  | ok d0 =>
    have hwf := createAttributes_wf E dict_struct d0 h0
    have heq := loadStream_rows E d0.attributes s1 s2 hwf hrows
    simp only
    rw [← heq]
    rcases loadStream_outcome E d0.attributes s1 hwf with herr | ⟨r, hr⟩
    · rw [herr]
      exact Or.inl ⟨_, rfl, rfl, Or.inl rfl⟩
    · rw [hr]
      exact Or.inr ⟨_, _, rfl, rfl, rfl, fun _ _ _ => rfl, fun _ _ _ => rfl, fun _ _ => rfl,
        fun _ => rfl, fun _ => rfl⟩

/-- Witness of C19 on `regions`: its rows in two blocks and in one build the
same dictionary. -/
theorem batches_do_not_matter_witness :
    rowsOf regionBlocks = rowsOf regionBlocksMerged ∧
    ((∃ e, FlatDictionary.construct decimalEnv regions regionBlocks = .error e ∧
      FlatDictionary.construct decimalEnv regions regionBlocksMerged = .error e ∧
      (e = .ARGUMENT_OUT_OF_BOUND ∨ createAttributes decimalEnv regions = .error e)) ∨
    (∃ d1 d2, FlatDictionary.construct decimalEnv regions regionBlocks = .ok d1 ∧
      FlatDictionary.construct decimalEnv regions regionBlocksMerged = .ok d2 ∧ d1 = d2 ∧
      (∀ T name id, d1.get T name id = d2.get T name id) ∧
      (∀ T i id, d1.getUnsafe T i id = d2.getUnsafe T i id) ∧
      (∀ T i, d1.is T i = d2.is T i) ∧
      (∀ name, d1.getAttributeIndex name = d2.getAttributeIndex name) ∧
      (∀ id, d1.toParent id = d2.toParent id))) :=
  ⟨rfl, batches_do_not_matter decimalEnv regions regionBlocks regionBlocksMerged rfl⟩

end DB
